import Mathlib

/-!
# OpenGL solar system: sphere tessellation, camera controller and orbital transforms

A shallow embedding of `src/boilerplate.cpp`: the tessellation `generateSphere` and its
caller `InitializeGeometry`, the three camera callbacks, and the matrices the main loop
builds for the sun, the earth and the moon.

## Arithmetic

The C++ code computes with `float` (IEEE binary32) and `double` (IEEE binary64).
The loop control of `generateSphere` accumulates `float` values, so the number of
rows, columns and seam vertices depends on the rounding of each addition.  The
embedding therefore keeps the rounding: a number is a fixed-point integer counting
units of `2^-256`, and every C++ operation is the exact operation followed by
round-to-nearest-even to 24 (`float`) or 53 (`double`) significant bits, each
operation being evaluated in the type C++ gives it (a `float` operand of a mixed
expression is promoted to `double`; an assignment to a `float` rounds to binary32).

* every finite binary32 value is a multiple of `2^-149`, so it is represented exactly;
* binary64 values are represented exactly when they carry no bits below `2^-256`;
* infinities, NaN, overflow and division by zero are not represented;
* an `int` is an unbounded integer (the counters stay far below `2^31`), and the value
  stored in the `unsigned` array `indices` is that integer (it is never negative when
  the offsets are not).

Sines, cosines and logarithms are not evaluated: a vertex write records the two
angles its position is computed from, and the geometric claims are stated over the
real numbers through `spherePoint` and the matrix functions, which take the
trigonometric functions as arguments.  The program itself evaluates the matrices in
binary32 with the C library's `cos` and `sin`, whose rounded results the source does
not determine; properties that hold or fail through those roundings (the exact
entries of a binary32 matrix product, the exact vanishing of a cross product) are
outside the embedding.

## Loops

The two `for` loops of `generateSphere` are recursive functions with an iteration
bound (`fuel`); a run that reaches the bound has the result `none`.  The theorems that
say a call returns give a bound with which it does.
-/

/-! ## Fixed-point IEEE rounding -/

set_option exponentiation.threshold 1024

/-- Number of fractional bits of a fixed-point number: the `float` or `double` value `x`
is stored as the integer `x * 2^256`.  In what follows a parameter or field of type `Int`
is such a fixed-point number when it stands for a `float` or `double` of the program
(angles, radii, texture coordinates, camera coordinates), and a plain integer when it
stands for an `int` (array positions, counters, texture ids). -/
def fracBits : Nat := 256

/-- The fixed-point number 1. -/
def one : Int := ((2 ^ fracBits : Nat) : Int)

/-- The fixed-point number of an integer. -/
def ofInt (n : Int) : Int := n * one

/-- Smallest `k` with `n < 2 ^ 2 ^ k` (the first argument bounds the search). -/
def ilog2Level : Nat → Nat → Nat → Nat
  | 0, _, k => k
  | f + 1, n, k => if n < 2 ^ 2 ^ k then k else ilog2Level f n (k + 1)

/-- Binary search for the position of the leading bit: bit `2^k`, then `2^(k-1)`, ... -/
def ilog2Aux : Nat → Nat → Nat → Nat
  | 0, _, acc => acc
  | k + 1, n, acc =>
    if 2 ^ 2 ^ k ≤ n then ilog2Aux k (n / 2 ^ 2 ^ k) (acc + 2 ^ k) else ilog2Aux k n acc

/-- Position of the leading bit of `n` (`⌊log₂ n⌋`, and 0 for `n = 0`). -/
def ilog2 (n : Nat) : Nat := ilog2Aux (ilog2Level n n 0) n 0

/-- The quotient `n / d` rounded to the nearest natural number, ties to even. -/
def rneDiv (n d : Nat) : Nat :=
  let q := n / d
  let r := n % d
  if 2 * r < d then q else if d < 2 * r then q + 1 else if q % 2 = 0 then q else q + 1

/-- The quotient `n / d` (in fixed-point units) rounded to `p` significant bits, to
nearest, ties to even; the result is a multiple of `2 ^ minShift` at least
(the spacing of subnormal numbers). -/
def roundNat (p minShift n d : Nat) : Nat :=
  let s := max (ilog2 (n / d) + 1 - p) minShift
  rneDiv n (d * 2 ^ s) * 2 ^ s

/-- Signed version of `roundNat`: rounds the quotient `n / d`. -/
def roundQuot (p minShift : Nat) (n d : Int) : Int :=
  if (0 ≤ n) = (0 ≤ d) then (roundNat p minShift n.natAbs d.natAbs : Int)
  else -(roundNat p minShift n.natAbs d.natAbs : Int)

/-- Rounding of an exact value to binary32 (24 significant bits, spacing at least `2^-149`). -/
def f32 (x : Int) : Int := roundQuot 24 107 x 1

/-- Rounding of an exact value to binary64 (53 significant bits). -/
def f64 (x : Int) : Int := roundQuot 53 0 x 1

/-- A decimal literal `num / den` of type `double`. -/
def lit64 (num den : Nat) : Int := roundQuot 53 0 (num * one) den

/-- Product of two `double` values. -/
def mul64 (a b : Int) : Int := roundQuot 53 0 (a * b) one

/-- Quotient of two `double` values. -/
def div64 (a b : Int) : Int := roundQuot 53 0 (a * one) b

/-- Quotient of two `float` values. -/
def div32 (a b : Int) : Int := roundQuot 24 107 (a * one) b

/-- The value of a fixed-point number in a field. -/
def toField (α : Type) [DivisionRing α] (x : Int) : α := (x : α) / 2 ^ fracBits

/-! ## Constants of the program -/

/-- Source: `const float piVal = 3.14159265359;` -/
def piVal : Int := f32 (lit64 314159265359 100000000000)

/-- Source: `const int maxShapes = 65536;` -/
def maxShapes : Int := 65536

/-- Source: `const int wWidth = 1920;` -/
def wWidth : Int := 1920

/-- Source: `const int wHeight = 1080;` -/
def wHeight : Int := 1080

/-- Source: `float scrollSpeed = 0.01;` -/
def scrollSpeed : Int := f32 (lit64 1 100)

/-- Source: `float maxHeight = piVal * 0.99;` -/
def maxHeight : Int := f32 (mul64 piVal (lit64 99 100))

/-- Source: `float minHeight = piVal - maxHeight;` -/
def minHeight : Int := f32 (piVal - maxHeight)

/-- Source: `float zoomSpeed = 2.0;` -/
def zoomSpeed : Int := ofInt 2

/-- Source: `float maxDistance = 500.0;` -/
def maxDistance : Int := ofInt 500

/-- Source: `float minDistance = 5.0;` -/
def minDistance : Int := ofInt 5

/-- Source: `float starResolution = 40.0;` -/
def starResolution : Int := ofInt 40

/-- Source: `float earthResolution = 40.0;` -/
def earthResolution : Int := ofInt 40

/-- Source: `float moonResolution = 20.0;` -/
def moonResolution : Int := ofInt 20

/-- Source: `float sunResolution = 100.0;` -/
def sunResolution : Int := ofInt 100

/-! ## Sphere tessellation (`generateSphere`) -/

/-- Source: `struct MySphere { int lastVertex; int lastIndex; }` -/
structure MySphere where
  lastVertex : Int
  lastIndex : Int
  deriving DecidableEq, Repr

/-- One write of `vertices[slot]` and `texCoords[slot]`.  The position written is
`(R cos(azimuth) sin(polar), R sin(azimuth) sin(polar), R cos(polar))`; the texture
coordinate written is `(u, v, tex)`; `corner` is 1, 2, 3 or 4 for the points the source
calls p1, p2, p3 and p4. -/
structure VertexWrite where
  corner : Nat
  slot : Int
  radius : Int
  azimuth : Int
  polar : Int
  u : Int
  v : Int
  tex : Int
  deriving DecidableEq, Repr

/-- One write `indices[slot] = value`. -/
structure IndexWrite where
  slot : Int
  value : Int
  deriving DecidableEq, Repr

/-- The local variables of `generateSphere` together with the trace of all writes
to the global arrays (most recent first) and whether the capacity `break` was taken. -/
structure GenState where
  i : Int
  j : Int
  x : Int
  y : Int
  vertexWrites : List VertexWrite
  indexWrites : List IndexWrite
  broke : Bool
  deriving DecidableEq, Repr

/-- The statements `vertices[i] = ...; texCoords[i] = ...; i++`. -/
def pushVertex (st : GenState) (corner : Nat) (R az pol u v : Int) (texID : Int) : GenState :=
  { st with
    vertexWrites := ⟨corner, st.i, R, az, pol, u, v, texID⟩ :: st.vertexWrites, i := st.i + 1 }

/-- The statements `indices[j] = value; j++`. -/
def pushIndex (st : GenState) (value : Int) : GenState :=
  { st with indexWrites := ⟨st.j, value⟩ :: st.indexWrites, j := st.j + 1 }

/-- The double value `1.0 / (2.0 * div)`. -/
def uStep (div : Int) : Int := div64 one (mul64 (ofInt 2) div)

/-- The double value `1.0 / div`. -/
def vStep (div : Int) : Int := div64 one div

/-- The double value `2.0 * piVal - unit` of the seam tests. -/
def seamAngle (unit : Int) : Int := f64 (mul64 (ofInt 2) piVal - unit)

/-- Lines 269-324: the vertices p1, p2, p3 and, past the seam angle, p4 of one cell.
Returns the new state and `offset`. -/
def cellVertices (div R unit : Int) (texID : Int) (it ip : Int) (st : GenState) :
    GenState × Int :=
  let nextp := f32 (ip + unit)
  let nextt := f32 (it + unit)
  let st := pushVertex st 1 R ip it (f32 (f64 (one - st.x))) st.y texID
  let st := { st with x := f32 (f64 (st.x + uStep div)) }
  let st := pushVertex st 2 R nextp it (f32 (f64 (one - st.x))) st.y texID
  let st := pushVertex st 3 R ip nextt (f32 (f64 (one - f64 (st.x - uStep div))))
    (f32 (f64 (st.y + vStep div))) texID
  if seamAngle unit < ip then
    (pushVertex st 4 R nextp nextt (f32 (f64 (one - st.x))) (f32 (f64 (st.y + vStep div)))
      texID, 1)
  else (st, 0)

/-- Lines 328-350: the indices of the one or two triangles of a cell. -/
def cellIndices (unit it ip : Int) (offset : Int) (st : GenState) : GenState :=
  let st := pushIndex st (st.i - 1 - offset)
  let st := pushIndex st (st.i - 2 - offset)
  let st := pushIndex st (st.i - 3 - offset)
  if 0 ≤ it ∧ it < f32 (piVal - unit) then
    let st := pushIndex st (st.i - 1 - offset)
    let st := pushIndex st (st.i - 2 - offset)
    if ip < seamAngle unit then pushIndex st (st.i + 2 - offset)
    else pushIndex st (st.i - offset)
  else st

/-- The loop `for (float ip = 0.0; ip < 2.0 * piVal; ip += unit)` from the value `ip` on.
`none` when the iteration bound is reached before the loop ends. -/
def innerLoop (div R unit : Int) (texID : Int) (it : Int) :
    Nat → Int → GenState → Option GenState
  | 0, ip, st => if ip < mul64 (ofInt 2) piVal then none else some st
  | fuel + 1, ip, st =>
    if ip < mul64 (ofInt 2) piVal then
      let r := cellVertices div R unit texID it ip st
      if maxShapes * 3 < r.1.i then some { r.1 with broke := true }
      else innerLoop div R unit texID it fuel (f32 (ip + unit)) (cellIndices unit it ip r.2 r.1)
    else some st

/-- The loop `for (float it = 0.0; it < piVal; it += unit)` from the value `it` on. -/
def outerLoop (div R unit : Int) (texID : Int) (fuel : Nat) :
    Nat → Int → GenState → Option GenState
  | 0, it, st => if it < piVal then none else some st
  | n + 1, it, st =>
    if it < piVal then
      match innerLoop div R unit texID it fuel 0 { st with x := 0 } with
      | none => none
      | some st1 =>
        outerLoop div R unit texID fuel n (f32 (it + unit))
          { st1 with y := f32 (f64 (st1.y + vStep div)) }
    else some st

/-- The state in which `generateSphere` leaves its locals and the arrays; `fuel` bounds
the number of iterations of each loop. -/
def generateSphereRun (fuel : Nat) (div R : Int) (i j texID : Int) : Option GenState :=
  outerLoop div R (div32 piVal div) texID fuel fuel 0
    { i := i, j := j, x := 0, y := 0, vertexWrites := [], indexWrites := [], broke := false }

/-- The result `{ lastVertex = i - 1, lastIndex = j - 1 }` of a finished run. -/
def result (st : GenState) : MySphere := { lastVertex := st.i - 1, lastIndex := st.j - 1 }

/-- Source: `MySphere generateSphere(float div, float R, int i, int j, int texID)`. -/
def generateSphere (fuel : Nat) (div R : Int) (i j texID : Int) : Option MySphere :=
  (generateSphereRun fuel div R i j texID).map result

/-- Source: `struct MyGeometry`: of its fields only `elementCount` is computed by the code under
study (the others are OpenGL object names). -/
structure MyGeometry where
  elementCount : Int
  deriving DecidableEq, Repr

/-- What `InitializeGeometry` leaves behind: the global `spheres[0..3]`, the geometry
record, and the trace of all writes of the four `generateSphere` calls. -/
structure Scene where
  spheres : List MySphere
  geometry : MyGeometry
  vertexWrites : List VertexWrite
  indexWrites : List IndexWrite
  broke : Bool
  deriving DecidableEq, Repr

/-- The radius `maxDistance + 0.65` passed for the star shell (a `double` sum converted
to `float`). -/
def starR : Int := f32 (f64 (maxDistance + lit64 65 100))

/-- Lines 362-376 of `InitializeGeometry`: the four chained `generateSphere` calls and
the assignment of `elementCount`.  The radii `earthR`, `moonR`, `sunR` are computed by the
program with `log` and are parameters here. -/
def InitializeGeometry (fuel : Nat) (earthR moonR sunR : Int) : Option Scene :=
  match generateSphereRun fuel earthResolution earthR 0 0 0 with
  | none => none
  | some s0 =>
    match generateSphereRun fuel starResolution starR
        ((result s0).lastVertex + 1) ((result s0).lastIndex + 1) 1 with
    | none => none
    | some s1 =>
      match generateSphereRun fuel moonResolution moonR
          ((result s1).lastVertex + 1) ((result s1).lastIndex + 1) 2 with
      | none => none
      | some s2 =>
        match generateSphereRun fuel sunResolution sunR
            ((result s2).lastVertex + 1) ((result s2).lastIndex + 1) 3 with
        | none => none
        | some s3 =>
          some
            { spheres := [result s0, result s1, result s2, result s3]
              geometry := { elementCount := (result s3).lastIndex }
              vertexWrites :=
                s3.vertexWrites ++ s2.vertexWrites ++ s1.vertexWrites ++ s0.vertexWrites
              indexWrites :=
                s3.indexWrites ++ s2.indexWrites ++ s1.indexWrites ++ s0.indexWrites
              broke := s0.broke || s1.broke || s2.broke || s3.broke }

/-! ### Loop control of `generateSphere` on its own

The values of `(ip, x)` at the head of each column and of `(it, y)` at the head of each
row do not depend on the arrays; the lists below are used to count cells and to
evaluate texture coordinates without running the whole tessellation. -/

/-- The pairs `(ip, x)` at the head of the successive iterations of the column loop. -/
def colTrace (div unit : Int) : Nat → Int → Int → List (Int × Int)
  | 0, _, _ => []
  | fuel + 1, ip, x =>
    if ip < mul64 (ofInt 2) piVal then
      (ip, x) :: colTrace div unit fuel (f32 (ip + unit)) (f32 (f64 (x + uStep div)))
    else []

/-- The pairs `(it, y)` at the head of the successive iterations of the row loop. -/
def rowTrace (div unit : Int) : Nat → Int → Int → List (Int × Int)
  | 0, _, _ => []
  | fuel + 1, it, y =>
    if it < piVal then
      (it, y) :: rowTrace div unit fuel (f32 (it + unit)) (f32 (f64 (y + vStep div)))
    else []

/-- Whether a cell at column angle `ip` emits the seam vertex p4. -/
def isSeam (unit : Int) (c : Int × Int) : Bool := decide (seamAngle unit < c.1)

/-- Whether the cells of the row at polar angle `it` emit a second triangle. -/
def hasSecond (unit : Int) (r : Int × Int) : Bool :=
  decide (0 ≤ r.1 ∧ r.1 < f32 (piVal - unit))

/-- The vertices one cell writes, as a list (most recent first), from the values of the
locals at the head of the cell. -/
def cellVertexList (div R unit : Int) (texID : Int) (it y ip x slot : Int) :
    List VertexWrite :=
  let x1 := f32 (f64 (x + uStep div))
  let v1 := f32 (f64 (y + vStep div))
  let p1 : VertexWrite := ⟨1, slot, R, ip, it, f32 (f64 (one - x)), y, texID⟩
  let p2 : VertexWrite := ⟨2, slot + 1, R, f32 (ip + unit), it, f32 (f64 (one - x1)), y, texID⟩
  let p3 : VertexWrite :=
    ⟨3, slot + 1 + 1, R, ip, f32 (it + unit), f32 (f64 (one - f64 (x1 - uStep div))), v1, texID⟩
  let p4 : VertexWrite :=
    ⟨4, slot + 1 + 1 + 1, R, f32 (ip + unit), f32 (it + unit), f32 (f64 (one - x1)), v1, texID⟩
  if seamAngle unit < ip then [p4, p3, p2, p1] else [p3, p2, p1]

/-- Grid of binary32 values of the binade `[2, 4)`: a value there is a multiple of `2^-22`. -/
def OnGrid (v : Int) : Prop := 0 ≤ v ∧ (2 ^ 257 ≤ v → (2 ^ 234 : Int) ∣ v)

/-- All index writes so far have their slot in `[j0, st.j)` and their value in `[i0, bound)`. -/
def IdxOK (i0 j0 bound : Int) (st : GenState) : Prop :=
  ∀ w ∈ st.indexWrites, j0 ≤ w.slot ∧ w.slot < st.j ∧ i0 ≤ w.value ∧ w.value < bound

/-- The writes so far fill the slots `[i0, st.i)` of `vertices` and `[j0, st.j)` of
`indices`, one write per slot. -/
def SlotsOK (i0 j0 : Int) (st : GenState) : Prop :=
  (∀ w ∈ st.vertexWrites, i0 ≤ w.slot ∧ w.slot < st.i) ∧
  (∀ w ∈ st.indexWrites, j0 ≤ w.slot ∧ w.slot < st.j) ∧
  i0 ≤ st.i ∧ j0 ≤ st.j ∧
  (st.vertexWrites.length : Int) = st.i - i0 ∧ (st.indexWrites.length : Int) = st.j - j0

/-- Number of seam vertices (p4) written so far. -/
def seamWrites (st : GenState) : Nat := st.vertexWrites.countP (fun w => decide (w.corner = 4))

/-! ## Camera controller (`MouseButtonCallback`, `CursorPosCallback`, `ScrollCallback`) -/

/-- The global variables of the camera and of the mouse (lines 52-62 and 122-123).
`cameraP`, `cameraT` and `cameraR` are `float`, `mousex` and `mousey` are `double`. -/
structure Camera where
  camFocus : Int
  cameraP : Int
  cameraT : Int
  cameraR : Int
  mousex : Int
  mousey : Int
  rotating : Bool
  deriving DecidableEq, Repr

/-- The initial values of the globals: `camFocus = 0`, `cameraP = cameraT = piVal / 2.0`,
`cameraR = 50.0`, `rotating = false` (`mousex`, `mousey` are zero-initialised). -/
def initialCamera : Camera :=
  { camFocus := 0
    cameraP := f32 (div64 piVal (ofInt 2))
    cameraT := f32 (div64 piVal (ofInt 2))
    cameraR := ofInt 50
    mousex := 0
    mousey := 0
    rotating := false }

/-- The GLFW constant `GLFW_MOUSE_BUTTON_1` -/
def GLFW_MOUSE_BUTTON_1 : Int := 0

/-- The GLFW constant `GLFW_PRESS` -/
def GLFW_PRESS : Int := 1

/-- The GLFW constant `GLFW_RELEASE` -/
def GLFW_RELEASE : Int := 0

/-- The callback `MouseButtonCallback`; `cx`, `cy` is the cursor position that `glfwGetCursorPos`
reports at the time of the event. -/
def MouseButtonCallback (st : Camera) (button action : Int) (cx cy : Int) : Camera :=
  if button = GLFW_MOUSE_BUTTON_1 then
    if action = GLFW_PRESS then { st with mousex := cx, mousey := cy, rotating := true }
    else if action = GLFW_RELEASE then { st with rotating := false }
    else st
  else st

/-- Source: `CursorPosCallback(window, xpos, ypos)`. -/
def CursorPosCallback (st : Camera) (xpos ypos : Int) : Camera :=
  if st.rotating then
    let st := { st with cameraP := f32 (f64 (st.cameraP
      + div64 (mul64 scrollSpeed (f64 (xpos - st.mousex))) (ofInt wWidth))) }
    let st := { st with cameraT := f32 (f64 (st.cameraT
      - div64 (mul64 scrollSpeed (f64 (ypos - st.mousey))) (ofInt wHeight))) }
    let st := if maxHeight < st.cameraT then { st with cameraT := maxHeight } else st
    if st.cameraT < minHeight then { st with cameraT := minHeight } else st
  else st

/-- Source: `ScrollCallback(window, xOffset, yOffset)`. -/
def ScrollCallback (st : Camera) (_xOffset yOffset : Int) : Camera :=
  let st := { st with cameraR := f32 (f64 (st.cameraR - mul64 zoomSpeed yOffset)) }
  let st := if st.cameraR < minDistance then { st with cameraR := minDistance } else st
  if maxDistance < st.cameraR then { st with cameraR := maxDistance } else st

/-- An input event delivered by the windowing layer. -/
inductive Event where
  | mouseButton (button action : Int) (cx cy : Int)
  | cursorPos (xpos ypos : Int)
  | scroll (xOffset yOffset : Int)
  deriving DecidableEq, Repr

/-- The callback an event triggers. -/
def handle (st : Camera) : Event → Camera
  | .mouseButton button action cx cy => MouseButtonCallback st button action cx cy
  | .cursorPos xpos ypos => CursorPosCallback st xpos ypos
  | .scroll xOffset yOffset => ScrollCallback st xOffset yOffset

/-- The camera after a sequence of events, in order. -/
def handleAll (st : Camera) (events : List Event) : Camera := events.foldl handle st

/-- The clamp of the spec: `v` limited to `[lo, hi]`. -/
def clamp (v lo hi : Int) : Int := if v < lo then lo else if hi < v then hi else v

/-- The bounds the camera keeps: `minHeight ≤ cameraT ≤ maxHeight` and
`minDistance ≤ cameraR ≤ maxDistance`. -/
def CameraInRange (st : Camera) : Prop :=
  (minHeight ≤ st.cameraT ∧ st.cameraT ≤ maxHeight) ∧
    (minDistance ≤ st.cameraR ∧ st.cameraR ≤ maxDistance)

/-- The event trace of C6: press of the primary button with the cursor at `(x0, y0)`, one
move to `(x1, y0)`, release, then the moves `later`. -/
def dragTrace (x0 y0 x1 : Int) (later : List (Int × Int)) : List Event :=
  [Event.mouseButton GLFW_MOUSE_BUTTON_1 GLFW_PRESS x0 y0,
    Event.cursorPos x1 y0,
    Event.mouseButton GLFW_MOUSE_BUTTON_1 GLFW_RELEASE x1 y0]
    ++ later.map (fun m => Event.cursorPos m.1 m.2)

/-! ## Orbital transforms (the main loop, lines 695-720)

The matrix functions `rotate`, `translate` and `normalize` are those of the GLM
library the program includes; they are written here from GLM's definitions, over any
field, with the cosine, sine and inverse square root passed as arguments.  A matrix is
indexed by row, then column, so that `m * v` is `Matrix.mulVec m v`. -/

namespace glm

/-- The GLM function `glm::normalize(v)`: `v * inversesqrt(dot(v, v))`. -/
def normalize {α : Type} [Field α] (rsqrt : α → α) (v : Fin 3 → α) : Fin 3 → α :=
  fun k => v k * rsqrt (v 0 * v 0 + v 1 * v 1 + v 2 * v 2)

/-- The GLM function `glm::rotate(m, angle, v)`: `m` times the rotation by `angle` about
the axis `v`. -/
def rotate {α : Type} [Field α] (cosf sinf rsqrt : α → α)
    (m : Matrix (Fin 4) (Fin 4) α) (angle : α) (v : Fin 3 → α) : Matrix (Fin 4) (Fin 4) α :=
  let c := cosf angle
  let s := sinf angle
  let axis := normalize rsqrt v
  let temp : Fin 3 → α := fun k => (1 - c) * axis k
  m * !![c + temp 0 * axis 0, temp 1 * axis 0 - s * axis 2, temp 2 * axis 0 + s * axis 1, 0;
         temp 0 * axis 1 + s * axis 2, c + temp 1 * axis 1, temp 2 * axis 1 - s * axis 0, 0;
         temp 0 * axis 2 - s * axis 1, temp 1 * axis 2 + s * axis 0, c + temp 2 * axis 2, 0;
         0, 0, 0, 1]

/-- The GLM function `glm::translate(m, v)`: `m` times the translation by `v`. -/
def translate {α : Type} [Field α] (m : Matrix (Fin 4) (Fin 4) α) (v : Fin 3 → α) :
    Matrix (Fin 4) (Fin 4) α :=
  m * !![1, 0, 0, v 0;
         0, 1, 0, v 1;
         0, 0, 1, v 2;
         0, 0, 0, 1]

end glm

/-- Source: `vec3 xaxis = vec3(1, 0, 0);` -/
def xaxis {α : Type} [Field α] : Fin 3 → α := ![1, 0, 0]

/-- Source: `vec3 yaxis = vec3(0, 1, 0);` -/
def yaxis {α : Type} [Field α] : Fin 3 → α := ![0, 1, 0]

/-- Source: `vec3 zaxis = vec3(0, 0, 1);` -/
def zaxis {α : Type} [Field α] : Fin 3 → α := ![0, 0, 1]

/-- Source: `vec4(v, w)`. -/
def vec4 {α : Type} [Field α] (v : Fin 3 → α) (w : α) : Fin 4 → α := ![v 0, v 1, v 2, w]

/-- The constants of the bodies the main loop uses (distances, periods, tilts), which
the program computes with `log` or from `piVal`; they are parameters of the model. -/
structure Bodies (α : Type) where
  distEarthToSun : α
  distMoonToEarth : α
  sunRotate : α
  sunTilt : α
  earthRotate : α
  earthOrbit : α
  earthTilt : α
  moonOrbit : α
  moonTilt : α
  moonIncl : α

/-- Source: `rotate(I, sunAngleR, yaxis)` with `sunAngleR = yangle / sunRotate` (lines 698, 700):
the self-rotation factor of `sunModel`. -/
def sunSelfRotation {α : Type} [Field α] (cosf sinf rsqrt : α → α) (b : Bodies α)
    (yangle : α) : Matrix (Fin 4) (Fin 4) α :=
  glm.rotate cosf sinf rsqrt 1 (yangle / b.sunRotate) yaxis

/-- Source: `rotate(I, earthAngleR, yaxis)` with `earthAngleR = yangle / earthRotate` (lines 704,
711): the self-rotation factor of `earthModel`. -/
def earthSelfRotation {α : Type} [Field α] (cosf sinf rsqrt : α → α) (b : Bodies α)
    (yangle : α) : Matrix (Fin 4) (Fin 4) α :=
  glm.rotate cosf sinf rsqrt 1 (yangle / b.earthRotate) yaxis

/-- Source: `mat4 earthPos` (lines 705-709). -/
def earthPos {α : Type} [Field α] (cosf sinf rsqrt : α → α) (b : Bodies α) (yangle : α) :
    Matrix (Fin 4) (Fin 4) α :=
  glm.rotate cosf sinf rsqrt 1 (yangle / b.earthOrbit) yaxis *
    glm.translate 1 ![b.distEarthToSun, 0, 0] *
    glm.rotate cosf sinf rsqrt 1 (-(yangle / b.earthOrbit)) yaxis *
    glm.rotate cosf sinf rsqrt 1 b.earthTilt xaxis

/-- Source: `mat4 moonPos` (lines 715-720). -/
def moonPos {α : Type} [Field α] (cosf sinf rsqrt : α → α) (b : Bodies α) (yangle : α) :
    Matrix (Fin 4) (Fin 4) α :=
  earthPos cosf sinf rsqrt b yangle *
    glm.rotate cosf sinf rsqrt 1 b.moonIncl zaxis *
    glm.rotate cosf sinf rsqrt 1 (yangle / b.moonOrbit) yaxis *
    glm.translate 1 ![b.distMoonToEarth, 0, 0] *
    glm.rotate cosf sinf rsqrt 1 b.moonTilt xaxis

/-- The position a vertex write stores: `(R cos(ip) sin(it), R sin(ip) sin(it), R cos(it))`
for the radius `R`, the azimuth `ip` (or `nextp`) and the polar angle `it` (or `nextt`). -/
def spherePoint {α : Type} [Field α] (cosf sinf : α → α) (R azimuth polar : α) : Fin 3 → α :=
  ![R * cosf azimuth * sinf polar, R * sinf azimuth * sinf polar, R * cosf polar]

/-- The position written by a vertex write, over a field. -/
def VertexWrite.position {α : Type} [Field α] (cosf sinf : α → α) (w : VertexWrite) :
    Fin 3 → α :=
  spherePoint cosf sinf (toField α w.radius) (toField α w.azimuth) (toField α w.polar)

/-- The constants of lines 83-105 as exact decimal values over a field, with the two
orbit distances (computed with `log` in the program) and the value of `piVal` as
arguments. -/
def sourceBodies {α : Type} [Field α] (distEarthToSun distMoonToEarth piValue : α) : Bodies α :=
  { distEarthToSun := distEarthToSun
    distMoonToEarth := distMoonToEarth
    sunRotate := 2538 / 100
    sunTilt := 725 / 100 * piValue / 180
    earthRotate := 99726968 / 100000000
    earthOrbit := 36525 / 100
    earthTilt := 2344 / 100 * piValue / 180
    moonOrbit := 2732158 / 100000
    moonTilt := 668 / 100 * piValue / 180
    moonIncl := 23435 / 1000 * piValue / 180 }

/-- The texture coordinate U that a cell whose column loop head is `c = (ip, x)` writes
for p2 and for the seam vertex p4: `1.0 - x` after `x += 1.0 / (2.0 * div)`. -/
def seamU (div : Int) (c : Int × Int) : Int := f32 (f64 (one - f32 (f64 (c.2 + uStep div))))

/-- Check of the column loop for the division `d`: every column past the seam angle is
the last one (the loop test fails for the next angle) and its seam vertex gets a
texture coordinate U in `[0, 2^-20)`. -/
def seamColumnsOK (d : Int) : Bool :=
  (colTrace (ofInt d) (div32 piVal (ofInt d)) 1000 0 0).all fun c =>
    !(isSeam (div32 piVal (ofInt d)) c) ||
      decide (¬ (f32 (c.1 + div32 piVal (ofInt d)) < mul64 (ofInt 2) piVal) ∧
        0 ≤ seamU (ofInt d) c ∧ seamU (ofInt d) c * 2 ^ 20 < one)
/-! ## Facts about the rounding functions -/

theorem rneDiv_mul_le (n d : Nat) (hd : 0 < d) : 2 * (rneDiv n d * d) ≤ 2 * n + d := by
  have h1 := Nat.div_add_mod n d
  have h2 := Nat.mod_lt n hd
  have h3 : (n / d + 1) * d = d * (n / d) + d := by ring
  have h4 : n / d * d = d * (n / d) := by ring
  unfold rneDiv
  simp only
  split_ifs <;> omega

theorem le_rneDiv_mul (n d : Nat) (hd : 0 < d) : 2 * n ≤ 2 * (rneDiv n d * d) + d := by
  have h1 := Nat.div_add_mod n d
  have h2 := Nat.mod_lt n hd
  have h3 : (n / d + 1) * d = d * (n / d) + d := by ring
  have h4 : n / d * d = d * (n / d) := by ring
  unfold rneDiv
  simp only
  split_ifs <;> omega

theorem ilog2Level_spec : ∀ (f n k : Nat), n < 2 ^ 2 ^ (k + f) → n < 2 ^ 2 ^ ilog2Level f n k
  | 0, n, k, h => by simpa [ilog2Level] using h
  | f + 1, n, k, h => by
    unfold ilog2Level
    split_ifs with hk
    · exact hk
    · exact ilog2Level_spec f n (k + 1) (by rwa [show k + 1 + f = k + (f + 1) by omega])

theorem ilog2Aux_spec : ∀ (k n acc : Nat), 0 < n → n < 2 ^ 2 ^ k →
    ∃ e, ilog2Aux k n acc = acc + e ∧ 2 ^ e ≤ n ∧ n < 2 ^ (e + 1)
  | 0, n, acc, h0, h => ⟨0, by simp [ilog2Aux], by simpa using h0, by simpa using h⟩
  | k + 1, n, acc, h0, h => by
    unfold ilog2Aux
    have hsq : 2 ^ 2 ^ (k + 1) = 2 ^ 2 ^ k * 2 ^ 2 ^ k := by
      rw [← pow_add]; congr 1; rw [pow_succ]; omega
    have hpos : 0 < 2 ^ 2 ^ k := by positivity
    split_ifs with hk
    · have hq0 : 0 < n / 2 ^ 2 ^ k := Nat.div_pos hk hpos
      have hq1 : n / 2 ^ 2 ^ k < 2 ^ 2 ^ k := by
        rw [Nat.div_lt_iff_lt_mul hpos]; rw [hsq] at h; exact h
      obtain ⟨e, he, hle, hlt⟩ := ilog2Aux_spec k (n / 2 ^ 2 ^ k) (acc + 2 ^ k) hq0 hq1
      refine ⟨2 ^ k + e, by rw [he]; omega, ?_, ?_⟩
      · rw [pow_add]
        calc 2 ^ 2 ^ k * 2 ^ e ≤ 2 ^ 2 ^ k * (n / 2 ^ 2 ^ k) := Nat.mul_le_mul_left _ hle
          _ ≤ n := Nat.mul_div_le n _
      · rw [show 2 ^ k + e + 1 = 2 ^ k + (e + 1) by omega, pow_add]
        calc n < 2 ^ 2 ^ k * (n / 2 ^ 2 ^ k + 1) := Nat.lt_mul_div_succ n hpos
          _ ≤ 2 ^ 2 ^ k * 2 ^ (e + 1) := Nat.mul_le_mul_left _ hlt
    · exact ilog2Aux_spec k n acc h0 (by omega)

theorem ilog2_spec (n : Nat) (h0 : 0 < n) : 2 ^ ilog2 n ≤ n ∧ n < 2 ^ (ilog2 n + 1) := by
  have hlev : n < 2 ^ 2 ^ ilog2Level n n 0 := by
    apply ilog2Level_spec
    calc n < 2 ^ n := Nat.lt_two_pow n
      _ ≤ 2 ^ 2 ^ (0 + n) := by
        apply Nat.pow_le_pow_right (by norm_num)
        rw [Nat.zero_add]; exact (Nat.lt_two_pow n).le
  obtain ⟨e, he, hle, hlt⟩ := ilog2Aux_spec (ilog2Level n n 0) n 0 h0 hlev
  have : ilog2 n = e := by unfold ilog2; rw [he]; omega
  rw [this]; exact ⟨hle, hlt⟩

theorem ilog2_zero : ilog2 0 = 0 := by decide

theorem ilog2_lt (n e : Nat) (h : n < 2 ^ e) : ilog2 n < e ∨ n = 0 := by
  rcases Nat.eq_zero_or_pos n with h0 | h0
  · exact Or.inr h0
  · left
    have := (ilog2_spec n h0).1
    exact (Nat.pow_lt_pow_iff_right (by norm_num : 1 < 2)).1 (lt_of_le_of_lt this h)

theorem ilog2_ge (n e : Nat) (h : 2 ^ e ≤ n) : e ≤ ilog2 n := by
  have h0 : 0 < n := lt_of_lt_of_le (by positivity) h
  have := (ilog2_spec n h0).2
  have h2 := (Nat.pow_lt_pow_iff_right (by norm_num : 1 < 2)).1 (lt_of_le_of_lt h this)
  omega

theorem roundNat_top (n : Nat) (h1 : 2 ^ 257 ≤ n) (h2 : n < 2 ^ 258) :
    roundNat 24 107 n 1 = rneDiv n (2 ^ 234) * 2 ^ 234 := by
  have hlog : ilog2 n = 257 := by
    have a := ilog2_ge n 257 h1
    rcases ilog2_lt n 258 h2 with b | b
    · omega
    · subst b; simp at h1
  simp [roundNat, hlog]

theorem roundNat_shift_le (n : Nat) (h : n < 2 ^ 257) :
    max (ilog2 n + 1 - 24) 107 ≤ 233 := by
  rcases ilog2_lt n 257 h with b | b
  · omega
  · subst b; rw [ilog2_zero]; decide

theorem roundNat_small (n : Nat) (h : n < 2 ^ 257) :
    2 * roundNat 24 107 n 1 ≤ 2 * n + 2 ^ 233 := by
  have hs := roundNat_shift_le n h
  have hb := rneDiv_mul_le n (2 ^ max (ilog2 n + 1 - 24) 107) (by positivity)
  have hp : 2 ^ max (ilog2 n + 1 - 24) 107 ≤ 2 ^ 233 := Nat.pow_le_pow_right (by norm_num) hs
  simp only [roundNat, Nat.div_one, Nat.one_mul]
  omega

theorem roundNat_grid (n : Nat) (h : 2 ^ 257 ≤ roundNat 24 107 n 1) :
    2 ^ 234 ∣ roundNat 24 107 n 1 := by
  rcases Nat.lt_or_ge n (2 ^ 257) with hn | hn
  · -- the value was rounded up to exactly `2 ^ 257`
    have hs := roundNat_shift_le n hn
    have hb := rneDiv_mul_le n (2 ^ max (ilog2 n + 1 - 24) 107) (by positivity)
    simp only [roundNat, Nat.div_one, Nat.one_mul] at h ⊢
    generalize max (ilog2 n + 1 - 24) 107 = s at *
    generalize rneDiv n (2 ^ s) = m at *
    have hsplit : 2 ^ 257 = 2 ^ (257 - s) * 2 ^ s := by
      rw [← pow_add]; congr 1; omega
    have hpos : 0 < 2 ^ s := by positivity
    have hm : m ≤ 2 ^ (257 - s) := by
      by_contra hcon
      have : (2 ^ (257 - s) + 1) * 2 ^ s ≤ m * 2 ^ s := Nat.mul_le_mul_right _ (by omega)
      have e : (2 ^ (257 - s) + 1) * 2 ^ s = 2 ^ 257 + 2 ^ s := by rw [hsplit]; ring
      omega
    have : m * 2 ^ s ≤ 2 ^ 257 := by
      rw [hsplit]; exact Nat.mul_le_mul_right _ hm
    have heq : m * 2 ^ s = 2 ^ 257 := le_antisymm this h
    rw [heq]
    exact Nat.pow_dvd_pow 2 (by norm_num)
  · have hlog := ilog2_ge n 257 hn
    simp only [roundNat, Nat.div_one, Nat.one_mul]
    have hs : 234 ≤ max (ilog2 n + 1 - 24) 107 := by omega
    exact Dvd.dvd.mul_left (Nat.pow_dvd_pow 2 hs) _

theorem f32_of_nonneg (x : Int) (h : 0 ≤ x) : f32 x = (roundNat 24 107 x.toNat 1 : Int) := by
  have : x.natAbs = x.toNat := by omega
  simp [f32, roundQuot, h, this]

theorem f32_nonneg (x : Int) (h : 0 ≤ x) : 0 ≤ f32 x := by
  rw [f32_of_nonneg x h]; exact Int.natCast_nonneg _

theorem onGrid_zero : OnGrid 0 := ⟨le_refl _, fun h => absurd h (by norm_num)⟩

theorem onGrid_f32 (x : Int) (h : 0 ≤ x) : OnGrid (f32 x) := by
  refine ⟨f32_nonneg x h, fun hge => ?_⟩
  rw [f32_of_nonneg x h] at hge ⊢
  have h1 : 2 ^ 257 ≤ roundNat 24 107 x.toNat 1 := by exact_mod_cast hge
  have := roundNat_grid _ h1
  exact_mod_cast (Int.natCast_dvd_natCast.2 this)

theorem piVal_eq : piVal = 13176795 * 2 ^ 234 := by decide!

theorem one_eq : one = 2 ^ 256 := by decide!

theorem f32_top (x : Int) (h1 : 2 ^ 257 ≤ x) (h2 : x < 2 ^ 258) :
    f32 x = (rneDiv x.toNat (2 ^ 234) * 2 ^ 234 : Nat) := by
  rw [f32_of_nonneg x (by omega), roundNat_top x.toNat (by omega) (by omega)]

theorem f32_small (x : Int) (h0 : 0 ≤ x) (h : x < 2 ^ 257) : 2 * f32 x ≤ 2 * x + 2 ^ 233 := by
  rw [f32_of_nonneg x h0]
  have := roundNat_small x.toNat (by omega)
  omega

/-- Rounding a value at least half a unit in the last place below `piVal` stays below `piVal`. -/
theorem f32_lt_piVal (z : Int) (h0 : 0 ≤ z) (h : 2 * z ≤ 2 * piVal - 2 ^ 234) : f32 z < piVal := by
  rw [piVal_eq] at h ⊢
  rcases lt_or_le z (2 ^ 257) with hz | hz
  · have := f32_small z h0 hz
    omega
  · rw [f32_top z hz (by omega)]
    have h1 := Nat.div_add_mod z.toNat (2 ^ 234)
    have h2 := Nat.mod_lt z.toNat (show 0 < 2 ^ 234 by positivity)
    have hz' : (z.toNat : Int) = z := Int.toNat_of_nonneg h0
    unfold rneDiv
    simp only
    split_ifs <;> omega

/-- The angular step `unit = piVal / div` for `div ≥ 3`. -/
theorem unit_bounds (div : Int) (h : ofInt 3 ≤ div) :
    0 ≤ div32 piVal div ∧ div32 piVal div ≤ 2 ^ 256 + 2 ^ 253 := by
  have hone := one_eq
  have hpi := piVal_eq
  have hd : 3 * 2 ^ 256 ≤ div := by simpa [ofInt, hone] using h
  have hd0 : (0 : Int) ≤ div := by omega
  have hn0 : (0 : Int) ≤ piVal * one := by rw [hpi, hone]; positivity
  have hdn : div.natAbs = div.toNat := by omega
  have hnn : (piVal * one).natAbs = 13176795 * 2 ^ 234 * 2 ^ 256 := by
    have e : piVal * one = ((13176795 * 2 ^ 234 * 2 ^ 256 : Nat) : Int) := by
      rw [hpi, hone]; push_cast
    rw [e, Int.natAbs_ofNat]
  have hr : div32 piVal div =
      (roundNat 24 107 (13176795 * 2 ^ 234 * 2 ^ 256) div.toNat : Int) := by
    simp [div32, roundQuot, hd0, hn0, hdn, hnn]
  rw [hr]
  refine ⟨Int.natCast_nonneg _, ?_⟩
  generalize hD : div.toNat = d
  have hd3 : 3 * 2 ^ 256 ≤ d := by omega
  have hdpos : 0 < d := by omega
  set n : Nat := 13176795 * 2 ^ 234 * 2 ^ 256 with hn
  have hq : n / d < 2 ^ 257 := by
    rw [Nat.div_lt_iff_lt_mul hdpos]
    calc n < 2 ^ 257 * (3 * 2 ^ 256) := by rw [hn]; norm_num
      _ ≤ 2 ^ 257 * d := Nat.mul_le_mul_left _ hd3
  have hs := roundNat_shift_le (n / d) hq
  simp only [roundNat]
  generalize max (ilog2 (n / d) + 1 - 24) 107 = s at hs
  have hb := rneDiv_mul_le n (d * 2 ^ s) (by positivity)
  generalize rneDiv n (d * 2 ^ s) = m at hb
  have hp : 2 ^ s ≤ 2 ^ 233 := Nat.pow_le_pow_right (by norm_num) hs
  -- 2 * (m * 2^s) * d ≤ 2 * n + d * 2^s
  by_contra hcon
  have hcon' : 2 ^ 256 + 2 ^ 253 + 1 ≤ m * 2 ^ s := by
    have : ¬ (m * 2 ^ s ≤ 2 ^ 256 + 2 ^ 253) := by
      intro hle; apply hcon; exact_mod_cast hle
    omega
  have h1 : 2 * ((2 ^ 256 + 2 ^ 253 + 1) * d) ≤ 2 * (m * (d * 2 ^ s)) := by
    have := Nat.mul_le_mul_right d hcon'
    nlinarith
  have h2 : d * 2 ^ s ≤ d * 2 ^ 233 := Nat.mul_le_mul_left _ hp
  have h3 : 2 * ((2 ^ 256 + 2 ^ 253 + 1) * d) ≤ 2 * n + d * 2 ^ 233 := by omega
  have h4 : 2 * n < (2 * (2 ^ 256 + 2 ^ 253 + 1) - 2 ^ 233) * (3 * 2 ^ 256) := by
    rw [hn]; norm_num
  have h5 : (2 * (2 ^ 256 + 2 ^ 253 + 1) - 2 ^ 233) * (3 * 2 ^ 256)
      ≤ (2 * (2 ^ 256 + 2 ^ 253 + 1) - 2 ^ 233) * d := Nat.mul_le_mul_left _ hd3
  have h6 : (2 * (2 ^ 256 + 2 ^ 253 + 1) - 2 ^ 233) * d + d * 2 ^ 233
      = 2 * ((2 ^ 256 + 2 ^ 253 + 1) * d) := by
    have : 2 ^ 233 ≤ 2 * (2 ^ 256 + 2 ^ 253 + 1) := by norm_num
    zify [this]; ring
  omega

/-- A row that emits second triangles (`it < piVal - unit`) is followed by another row
(`it + unit < piVal` after rounding). -/
theorem next_row (div it : Int) (hdiv : ofInt 3 ≤ div) (hg : OnGrid it)
    (h : it < f32 (piVal - div32 piVal div)) : f32 (it + div32 piVal div) < piVal := by
  obtain ⟨hu0, hu1⟩ := unit_bounds div hdiv
  obtain ⟨hit0, hgrid⟩ := hg
  have hpi := piVal_eq
  generalize div32 piVal div = u at *
  apply f32_lt_piVal _ (by omega)
  rcases lt_or_le it (2 ^ 257) with hlt | hge
  · omega
  · have hA1 : (2 : Int) ^ 257 ≤ piVal - u := by omega
    have hA2 : piVal - u < 2 ^ 258 := by omega
    rw [f32_top _ hA1 hA2] at h
    have hb := rneDiv_mul_le (piVal - u).toNat (2 ^ 234) (by positivity)
    have hA : ((piVal - u).toNat : Int) = piVal - u := Int.toNat_of_nonneg (by omega)
    generalize rneDiv (piVal - u).toNat (2 ^ 234) = m at *
    obtain ⟨a, ha⟩ := hgrid hge
    have hlt : a < (m : Int) := by
      have : (2 : Int) ^ 234 * a < 2 ^ 234 * m := by
        rw [← ha]; push_cast at h; linarith
      exact lt_of_mul_lt_mul_left this (by positivity)
    have hstep : it + 2 ^ 234 ≤ (m : Int) * 2 ^ 234 := by
      rw [ha]; nlinarith
    have hb' : 2 * ((m : Int) * 2 ^ 234) ≤ 2 * (piVal - u) + 2 ^ 234 := by
      rw [← hA]; exact_mod_cast hb
    omega

/-! ## Structure of one cell -/

theorem cellVertices_snd (div R unit : Int) (texID : Int) (it ip : Int) (st : GenState) :
    (cellVertices div R unit texID it ip st).2 = if seamAngle unit < ip then 1 else 0 := by
  unfold cellVertices; simp only; split_ifs <;> rfl

theorem cellVertices_i (div R unit : Int) (texID : Int) (it ip : Int) (st : GenState) :
    (cellVertices div R unit texID it ip st).1.i
      = st.i + 3 + (cellVertices div R unit texID it ip st).2 := by
  unfold cellVertices; simp only [pushVertex]; split_ifs <;> simp <;> omega

theorem cellVertices_j (div R unit : Int) (texID : Int) (it ip : Int) (st : GenState) :
    (cellVertices div R unit texID it ip st).1.j = st.j := by
  unfold cellVertices; simp only [pushVertex]; split_ifs <;> rfl

theorem cellVertices_x (div R unit : Int) (texID : Int) (it ip : Int) (st : GenState) :
    (cellVertices div R unit texID it ip st).1.x = f32 (f64 (st.x + uStep div)) := by
  unfold cellVertices; simp only [pushVertex]; split_ifs <;> rfl

theorem cellVertices_y (div R unit : Int) (texID : Int) (it ip : Int) (st : GenState) :
    (cellVertices div R unit texID it ip st).1.y = st.y := by
  unfold cellVertices; simp only [pushVertex]; split_ifs <;> rfl

theorem cellVertices_broke (div R unit : Int) (texID : Int) (it ip : Int) (st : GenState) :
    (cellVertices div R unit texID it ip st).1.broke = st.broke := by
  unfold cellVertices; simp only [pushVertex]; split_ifs <;> rfl

theorem cellVertices_indexWrites (div R unit : Int) (texID : Int) (it ip : Int)
    (st : GenState) :
    (cellVertices div R unit texID it ip st).1.indexWrites = st.indexWrites := by
  unfold cellVertices; simp only [pushVertex]; split_ifs <;> rfl

theorem cellVertices_vertexWrites (div R unit : Int) (texID : Int) (it ip : Int)
    (st : GenState) :
    (cellVertices div R unit texID it ip st).1.vertexWrites
      = cellVertexList div R unit texID it st.y ip st.x st.i ++ st.vertexWrites := by
  unfold cellVertices cellVertexList; simp only [pushVertex]; split_ifs <;> rfl

theorem cellIndices_i (unit it ip o : Int) (st : GenState) :
    (cellIndices unit it ip o st).i = st.i := by
  unfold cellIndices; simp only [pushIndex]; split_ifs <;> rfl

theorem cellIndices_x (unit it ip o : Int) (st : GenState) :
    (cellIndices unit it ip o st).x = st.x := by
  unfold cellIndices; simp only [pushIndex]; split_ifs <;> rfl

theorem cellIndices_y (unit it ip o : Int) (st : GenState) :
    (cellIndices unit it ip o st).y = st.y := by
  unfold cellIndices; simp only [pushIndex]; split_ifs <;> rfl

theorem cellIndices_broke (unit it ip o : Int) (st : GenState) :
    (cellIndices unit it ip o st).broke = st.broke := by
  unfold cellIndices; simp only [pushIndex]; split_ifs <;> rfl

theorem cellIndices_vertexWrites (unit it ip o : Int) (st : GenState) :
    (cellIndices unit it ip o st).vertexWrites = st.vertexWrites := by
  unfold cellIndices; simp only [pushIndex]; split_ifs <;> rfl

theorem cellIndices_j (unit it ip o : Int) (st : GenState) :
    (cellIndices unit it ip o st).j = st.j + if hasSecond unit (it, 0) then 6 else 3 := by
  by_cases h : 0 ≤ it ∧ it < f32 (piVal - unit)
  · by_cases h2 : ip < seamAngle unit <;>
      simp [cellIndices, hasSecond, h, h2, pushIndex] <;> omega
  · simp [cellIndices, hasSecond, h, pushIndex]; omega

theorem cellIndices_length (unit it ip o : Int) (st : GenState) :
    ((cellIndices unit it ip o st).indexWrites.length : Int)
      = st.indexWrites.length + if hasSecond unit (it, 0) then 6 else 3 := by
  by_cases h : 0 ≤ it ∧ it < f32 (piVal - unit)
  · by_cases h2 : ip < seamAngle unit <;>
      simp [cellIndices, hasSecond, h, h2, pushIndex] <;> omega
  · simp [cellIndices, hasSecond, h, pushIndex]; omega

/-- The index writes of one cell: their slots continue `j`, their values point into the
vertices of this cell, except the last value of a second triangle, which may point up to
three positions past the vertices written so far. -/
theorem cellIndices_mem (unit it ip o : Int) (st : GenState) (ho : 0 ≤ o)
    (w : IndexWrite) (hw : w ∈ (cellIndices unit it ip o st).indexWrites) :
    w ∈ st.indexWrites ∨
      (st.j ≤ w.slot ∧ w.slot < (cellIndices unit it ip o st).j ∧ st.i - 3 - o ≤ w.value ∧
        (w.value < st.i ∨ (hasSecond unit (it, 0) = true ∧ w.value < st.i + 3))) := by
  rw [cellIndices_j]
  by_cases h : 0 ≤ it ∧ it < f32 (piVal - unit)
  · by_cases h2 : ip < seamAngle unit <;>
      simp only [cellIndices, hasSecond, h, h2, pushIndex, and_self, if_true, if_false,
        List.mem_cons, decide_True, true_and] at hw ⊢ <;>
      rcases hw with rfl | rfl | rfl | rfl | rfl | rfl | hw <;>
      first
        | exact Or.inl hw
        | (right; simp only; omega)
  · simp only [cellIndices, hasSecond, h, pushIndex, if_false, List.mem_cons,
      decide_False] at hw ⊢
    rcases hw with rfl | rfl | rfl | hw <;>
      first
        | exact Or.inl hw
        | (right; simp; omega)

/-! ## Index values stay inside the vertices of the same call -/

theorem two_pi_pos : (0 : Int) < mul64 (ofInt 2) piVal := by decide!

theorem idxOK_mono (i0 j0 b b' : Int) (st : GenState) (h : IdxOK i0 j0 b st) (hb : b ≤ b') :
    IdxOK i0 j0 b' st := fun w hw =>
  ⟨(h w hw).1, (h w hw).2.1, (h w hw).2.2.1, lt_of_lt_of_le (h w hw).2.2.2 hb⟩

theorem idxOK_cellVertices (div R unit : Int) (texID : Int) (it ip : Int) (i0 j0 : Int)
    (st : GenState) (h : IdxOK i0 j0 (st.i + 3) st) :
    IdxOK i0 j0 (cellVertices div R unit texID it ip st).1.i
      (cellVertices div R unit texID it ip st).1 := by
  intro w hw
  rw [cellVertices_indexWrites] at hw
  have := h w hw
  rw [cellVertices_i, cellVertices_j, cellVertices_snd]
  split_ifs <;> omega

theorem idxOK_cellIndices (unit it ip o : Int) (i0 j0 : Int) (st : GenState)
    (ho : 0 ≤ o) (hi : i0 + 3 + o ≤ st.i) (hj : j0 ≤ st.j) (h : IdxOK i0 j0 st.i st) :
    IdxOK i0 j0 (st.i + 3) (cellIndices unit it ip o st) ∧
      (hasSecond unit (it, 0) = false → IdxOK i0 j0 st.i (cellIndices unit it ip o st)) := by
  have hjj := cellIndices_j unit it ip o st
  have hjle : st.j ≤ (cellIndices unit it ip o st).j := by rw [hjj]; split_ifs <;> omega
  constructor
  · intro w hw
    rcases cellIndices_mem unit it ip o st ho w hw with h1 | ⟨a, b, c, d⟩
    · have := h w h1; omega
    · rcases d with d | ⟨_, d⟩ <;> omega
  · intro hs w hw
    rcases cellIndices_mem unit it ip o st ho w hw with h1 | ⟨a, b, c, d⟩
    · have := h w h1; omega
    · rcases d with d | ⟨d0, d⟩
      · omega
      · rw [hs] at d0; exact absurd d0 (by simp)

theorem innerLoop_zero (div R unit : Int) (texID : Int) (it ip : Int) (st : GenState) :
    innerLoop div R unit texID it 0 ip st
      = if ip < mul64 (ofInt 2) piVal then none else some st := rfl

theorem innerLoop_succ (div R unit : Int) (texID : Int) (it ip : Int) (st : GenState)
    (fuel : Nat) :
    innerLoop div R unit texID it (fuel + 1) ip st
      = if ip < mul64 (ofInt 2) piVal then
          (if maxShapes * 3 < (cellVertices div R unit texID it ip st).1.i then
            some { (cellVertices div R unit texID it ip st).1 with broke := true }
          else innerLoop div R unit texID it fuel (f32 (ip + unit))
            (cellIndices unit it ip (cellVertices div R unit texID it ip st).2
              (cellVertices div R unit texID it ip st).1))
        else some st := rfl

theorem outerLoop_zero (div R unit : Int) (texID : Int) (fuel : Nat) (it : Int)
    (st : GenState) :
    outerLoop div R unit texID fuel 0 it st = if it < piVal then none else some st := rfl

theorem outerLoop_succ (div R unit : Int) (texID : Int) (fuel n : Nat) (it : Int)
    (st : GenState) :
    outerLoop div R unit texID fuel (n + 1) it st
      = if it < piVal then
          (match innerLoop div R unit texID it fuel 0 { st with x := 0 } with
          | none => none
          | some st1 =>
            outerLoop div R unit texID fuel n (f32 (it + unit))
              { st1 with y := f32 (f64 (st1.y + vStep div)) })
        else some st := rfl

theorem innerLoop_idxOK (div R unit : Int) (texID : Int) (it : Int) (i0 j0 : Int) :
    ∀ (fuel : Nat) (ip : Int) (st st' : GenState),
      innerLoop div R unit texID it fuel ip st = some st' →
      i0 ≤ st.i → j0 ≤ st.j → IdxOK i0 j0 (st.i + 3) st →
      IdxOK i0 j0 (st'.i + 3) st' ∧ st.i ≤ st'.i ∧ st.j ≤ st'.j ∧
        (ip < mul64 (ofInt 2) piVal → st.i + 3 ≤ st'.i) ∧
        (hasSecond unit (it, 0) = false →
          (IdxOK i0 j0 st.i st ∨ ip < mul64 (ofInt 2) piVal) → IdxOK i0 j0 st'.i st') := by
  intro fuel
  induction fuel with
  | zero =>
    intro ip st st' hrun hi hj hw
    rw [innerLoop_zero] at hrun
    by_cases hc : ip < mul64 (ofInt 2) piVal
    · simp [hc] at hrun
    · simp only [hc, if_false, Option.some.injEq] at hrun
      subst hrun
      exact ⟨hw, le_refl _, le_refl _, fun h => absurd h hc,
        fun _ h => h.resolve_right hc⟩
  | succ fuel ih =>
    intro ip st st' hrun hi hj hw
    rw [innerLoop_succ] at hrun
    by_cases hc : ip < mul64 (ofInt 2) piVal
    · simp only [hc, if_true] at hrun
      have hcv := idxOK_cellVertices div R unit texID it ip i0 j0 st hw
      have hci := cellVertices_i div R unit texID it ip st
      have hcj := cellVertices_j div R unit texID it ip st
      have ho := cellVertices_snd div R unit texID it ip st
      have ho0 : 0 ≤ (cellVertices div R unit texID it ip st).2 := by
        rw [ho]; split_ifs <;> omega
      by_cases hb : maxShapes * 3 < (cellVertices div R unit texID it ip st).1.i
      · -- the capacity break
        simp only [hb, if_true, Option.some.injEq] at hrun
        subst hrun
        refine ⟨?_, ?_, ?_, ?_, ?_⟩
        · exact idxOK_mono _ _ _ _ _ hcv (by simp)
        · simp only; omega
        · simp only; omega
        · intro _; simp only; omega
        · intro _ _; exact hcv
      · simp only [hb, if_false] at hrun
        have hix := idxOK_cellIndices unit it ip (cellVertices div R unit texID it ip st).2
          i0 j0 (cellVertices div R unit texID it ip st).1 ho0 (by omega) (by omega) hcv
        have hii := cellIndices_i unit it ip (cellVertices div R unit texID it ip st).2
          (cellVertices div R unit texID it ip st).1
        have hjj := cellIndices_j unit it ip (cellVertices div R unit texID it ip st).2
          (cellVertices div R unit texID it ip st).1
        have hjle : st.j ≤ (cellIndices unit it ip (cellVertices div R unit texID it ip st).2
            (cellVertices div R unit texID it ip st).1).j := by
          rw [hjj]; split_ifs <;> omega
        obtain ⟨a, b, c, _, e⟩ :=
          ih _ _ _ hrun (by omega) (by omega) (by rw [hii]; exact hix.1)
        refine ⟨a, by omega, by omega, fun _ => by omega, fun hs _ => ?_⟩
        exact e hs (Or.inl (by rw [hii]; exact hix.2 hs))
    · simp only [hc, if_false, Option.some.injEq] at hrun
      subst hrun
      exact ⟨hw, le_refl _, le_refl _, fun h => absurd h hc,
        fun _ h => h.resolve_right hc⟩

theorem outerLoop_idxOK (div R : Int) (texID : Int) (fuel : Nat) (i0 j0 : Int)
    (hdiv : ofInt 3 ≤ div) :
    ∀ (n : Nat) (it : Int) (st st' : GenState),
      outerLoop div R (div32 piVal div) texID fuel n it st = some st' →
      OnGrid it → i0 ≤ st.i → j0 ≤ st.j → IdxOK i0 j0 (st.i + 3) st →
      (IdxOK i0 j0 st.i st ∨ it < piVal) → IdxOK i0 j0 st'.i st' := by
  intro n
  induction n with
  | zero =>
    intro it st st' hrun _ _ _ _ hs
    rw [outerLoop_zero] at hrun
    by_cases hc : it < piVal
    · simp [hc] at hrun
    · simp only [hc, if_false, Option.some.injEq] at hrun
      subst hrun
      exact hs.resolve_right hc
  | succ n ih =>
    intro it st st' hrun hg hi hj hw hs
    rw [outerLoop_succ] at hrun
    by_cases hc : it < piVal
    · simp only [hc, if_true] at hrun
      cases hin : innerLoop div R (div32 piVal div) texID it fuel 0 { st with x := 0 } with
      | none => simp [hin] at hrun
      | some st1 =>
        simp only [hin] at hrun
        obtain ⟨a, b, c, d, e⟩ :=
          innerLoop_idxOK div R (div32 piVal div) texID it i0 j0 fuel 0 _ st1 hin hi hj hw
        have hu := (unit_bounds div hdiv).1
        have hg' : OnGrid (f32 (it + div32 piVal div)) :=
          onGrid_f32 _ (by have := hg.1; omega)
        have hi1 : i0 ≤ st1.i := le_trans hi b
        have hj1 : j0 ≤ st1.j := le_trans hj c
        apply ih _ _ _ hrun hg' hi1 hj1 a
        cases hsec : hasSecond (div32 piVal div) (it, 0) with
        | true =>
          right
          simp only [hasSecond, decide_eq_true_eq] at hsec
          exact next_row div it hdiv hg hsec.2
        | false =>
          left
          exact e hsec (Or.inr two_pi_pos)
    · simp only [hc, if_false, Option.some.injEq] at hrun
      subst hrun
      exact hs.resolve_right hc

/-- C1: every value `generateSphere` writes into `indices` (at a slot between `j` and
`lastIndex`) is the position of a vertex of the same call: `i ≤ value ≤ lastVertex`.
Holds for every `div ≥ 3`, every radius and all offsets, whether or not the capacity
`break` is taken. -/
theorem generateSphere_indices_in_range (fuel : Nat) (div R i j texID : Int) (st : GenState)
    (hdiv : ofInt 3 ≤ div) (hrun : generateSphereRun fuel div R i j texID = some st) :
    ∀ w ∈ st.indexWrites,
      (j ≤ w.slot ∧ w.slot ≤ (result st).lastIndex) ∧
        (i ≤ w.value ∧ w.value ≤ (result st).lastVertex) := by
  intro w hw
  have h0 : IdxOK i j (i + 3)
      { i := i, j := j, x := 0, y := 0, vertexWrites := [], indexWrites := [],
        broke := false } := by
    intro w hw; simp at hw
  have := outerLoop_idxOK div R texID fuel i j hdiv fuel 0 _ st hrun onGrid_zero
    (le_refl _) (le_refl _) h0 (Or.inl (by intro w hw; simp at hw)) w hw
  simp only [result]
  omega

/-! ## Counting cells: the run of `generateSphere` from the loop control alone -/

theorem hasSecond_fst (unit : Int) (a b : Int) : hasSecond unit (a, b) = hasSecond unit (a, 0) :=
  rfl

theorem cellVertices_seamWrites (div R unit : Int) (texID : Int) (it ip : Int)
    (st : GenState) :
    seamWrites (cellVertices div R unit texID it ip st).1
      = seamWrites st + if isSeam unit (ip, st.x) = true then 1 else 0 := by
  unfold seamWrites
  rw [cellVertices_vertexWrites, List.countP_append]
  unfold cellVertexList isSeam
  simp only
  split_ifs with h1 h2 h2
  · simp [List.countP_cons]; omega
  · simp at h2; omega
  · simp at h2; omega
  · simp [List.countP_cons]

theorem cellIndices_seamWrites (unit it ip o : Int) (st : GenState) :
    seamWrites (cellIndices unit it ip o st) = seamWrites st := by
  unfold seamWrites; rw [cellIndices_vertexWrites]

theorem innerLoop_counts (div R unit : Int) (texID : Int) (it : Int) :
    ∀ (fuel : Nat) (ip : Int) (st : GenState),
      (colTrace div unit fuel ip st.x).length < fuel →
      st.i + 3 * (colTrace div unit fuel ip st.x).length
        + (colTrace div unit fuel ip st.x).countP (isSeam unit) ≤ maxShapes * 3 →
      ∃ st', innerLoop div R unit texID it fuel ip st = some st' ∧
        st'.i = st.i + 3 * (colTrace div unit fuel ip st.x).length
          + (colTrace div unit fuel ip st.x).countP (isSeam unit) ∧
        st'.j = st.j + (if hasSecond unit (it, 0) then 6 else 3)
          * (colTrace div unit fuel ip st.x).length ∧
        st'.broke = st.broke ∧ st'.y = st.y ∧
        seamWrites st' = seamWrites st
          + (colTrace div unit fuel ip st.x).countP (isSeam unit) := by
  intro fuel
  induction fuel with
  | zero => intro ip st h; simp at h
  | succ fuel ih =>
    intro ip st hlen hcap
    rw [innerLoop_succ]
    by_cases hc : ip < mul64 (ofInt 2) piVal
    · simp only [colTrace, hc, if_true, List.length_cons, List.countP_cons] at hlen hcap ⊢
      have hci := cellVertices_i div R unit texID it ip st
      have hcj := cellVertices_j div R unit texID it ip st
      have hcx := cellVertices_x div R unit texID it ip st
      have hcy := cellVertices_y div R unit texID it ip st
      have hcb := cellVertices_broke div R unit texID it ip st
      have ho := cellVertices_snd div R unit texID it ip st
      have hsw := cellVertices_seamWrites div R unit texID it ip st
      have hseam : (cellVertices div R unit texID it ip st).2
          = if isSeam unit (ip, st.x) = true then 1 else 0 := by
        rw [ho]; simp [isSeam]
      generalize hcv : cellVertices div R unit texID it ip st = cv at *
      have hii := cellIndices_i unit it ip cv.2 cv.1
      have hjj := cellIndices_j unit it ip cv.2 cv.1
      have hxx := cellIndices_x unit it ip cv.2 cv.1
      have hyy := cellIndices_y unit it ip cv.2 cv.1
      have hbb := cellIndices_broke unit it ip cv.2 cv.1
      have hss := cellIndices_seamWrites unit it ip cv.2 cv.1
      generalize hci2 : cellIndices unit it ip cv.2 cv.1 = s2 at *
      have hx2 : s2.x = f32 (f64 (st.x + uStep div)) := by rw [hxx, hcx]
      have hnn : (0 : Int) ≤ ((colTrace div unit fuel (f32 (ip + unit))
          (f32 (f64 (st.x + uStep div)))).countP (isSeam unit) : Int) := Int.natCast_nonneg _
      have hll : (0 : Int) ≤ ((colTrace div unit fuel (f32 (ip + unit))
          (f32 (f64 (st.x + uStep div)))).length : Int) := Int.natCast_nonneg _
      have hnb : ¬ maxShapes * 3 < cv.1.i := by
        rw [hci, hseam]
        split_ifs at hcap ⊢ <;> push_cast at hcap <;> omega
      simp only [hnb, if_false]
      obtain ⟨st', h1, h2, h3, h4, h5, h6⟩ := ih (f32 (ip + unit)) s2
        (by rw [hx2]; omega)
        (by rw [hx2, hii, hci, hseam]; split_ifs at hcap ⊢ <;> push_cast at hcap <;> omega)
      refine ⟨st', h1, ?_, ?_, ?_, ?_, ?_⟩
      · rw [h2, hx2, hii, hci, hseam]; split_ifs <;> push_cast <;> omega
      · rw [h3, hx2, hjj, hcj]; push_cast; ring
      · rw [h4, hbb, hcb]
      · rw [h5, hyy, hcy]
      · rw [h6, hx2, hss, hsw]; split_ifs <;> omega
    · simp only [colTrace, hc, if_false, List.length_nil, List.countP_nil]
      exact ⟨st, rfl, by simp, by simp, rfl, rfl, rfl⟩

theorem outerLoop_counts (div R unit : Int) (texID : Int) (fuel c s : Nat)
    (hc : (colTrace div unit fuel 0 0).length = c)
    (hs : (colTrace div unit fuel 0 0).countP (isSeam unit) = s) (hcf : c < fuel) :
    ∀ (n : Nat) (it : Int) (st : GenState),
      (rowTrace div unit n it st.y).length < n →
      st.i + (rowTrace div unit n it st.y).length * (3 * c + s) ≤ maxShapes * 3 →
      ∃ st', outerLoop div R unit texID fuel n it st = some st' ∧
        st'.i = st.i + (rowTrace div unit n it st.y).length * (3 * c + s) ∧
        st'.j = st.j + 3 * c * (rowTrace div unit n it st.y).length
          + 3 * c * (rowTrace div unit n it st.y).countP (hasSecond unit) ∧
        st'.broke = st.broke ∧
        seamWrites st' = seamWrites st + (rowTrace div unit n it st.y).length * s := by
  intro n
  induction n with
  | zero => intro it st h; simp at h
  | succ n ih =>
    intro it st hlen hcap
    rw [outerLoop_succ]
    by_cases hit : it < piVal
    · simp only [rowTrace, hit, if_true, List.length_cons, List.countP_cons] at hlen hcap ⊢
      have hll : (0 : Int) ≤ ((rowTrace div unit n (f32 (it + unit))
          (f32 (f64 (st.y + vStep div)))).length : Int) := Int.natCast_nonneg _
      have hmul : (0 : Int) ≤ ((rowTrace div unit n (f32 (it + unit))
          (f32 (f64 (st.y + vStep div)))).length : Int) * (3 * c + s) :=
        mul_nonneg hll (by positivity)
      push_cast at hcap
      obtain ⟨st1, h1, h2, h3, h4, h5, h6⟩ :=
        innerLoop_counts div R unit texID it fuel 0 { st with x := 0 }
          (by simp only; rw [hc]; exact hcf)
          (by simp only; rw [hc, hs]; nlinarith)
      simp only at h2 h3 h4 h5 h6
      rw [hc, hs] at h2
      rw [hc] at h3
      rw [hs] at h6
      simp only [h1]
      obtain ⟨st', g1, g2, g3, g4, g5⟩ := ih (f32 (it + unit))
        { st1 with y := f32 (f64 (st1.y + vStep div)) }
        (by simp only; rw [h5]; omega)
        (by simp only; rw [h5, h2]; nlinarith)
      simp only at g2 g3 g4 g5
      rw [h5] at g2 g3 g5
      have hsw : seamWrites { st1 with y := f32 (f64 (st.y + vStep div)) } = seamWrites st1 :=
        rfl
      have hsx : seamWrites { st with x := 0 } = seamWrites st := rfl
      refine ⟨st', g1, ?_, ?_, ?_, ?_⟩
      · rw [g2, h2]; push_cast; ring
      · rw [g3, h3, hasSecond_fst unit it st.y]
        split_ifs <;> push_cast <;> ring
      · rw [g4, h4]
      · rw [g5, hsw, h6, hsx]; ring
    · simp only [rowTrace, hit, if_false, List.length_nil, List.countP_nil]
      exact ⟨st, rfl, by simp, by simp, rfl, by simp⟩

/-- The counters of a run of `generateSphere` that stays within the capacity, from the
number of rows, of rows with second triangles, of columns and of seam columns. -/
theorem generateSphereRun_counts (fuel : Nat) (div R i j texID : Int) (r r2 c s : Nat)
    (hr : (rowTrace div (div32 piVal div) fuel 0 0).length = r)
    (hr2 : (rowTrace div (div32 piVal div) fuel 0 0).countP (hasSecond (div32 piVal div)) = r2)
    (hc : (colTrace div (div32 piVal div) fuel 0 0).length = c)
    (hs : (colTrace div (div32 piVal div) fuel 0 0).countP (isSeam (div32 piVal div)) = s)
    (hrf : r < fuel) (hcf : c < fuel) (hcap : i + r * (3 * c + s) ≤ maxShapes * 3) :
    ∃ st, generateSphereRun fuel div R i j texID = some st ∧
      st.i = i + r * (3 * c + s) ∧ st.j = j + 3 * c * r + 3 * c * r2 ∧ st.broke = false ∧
      seamWrites st = r * s := by
  obtain ⟨st, h1, h2, h3, h4, h5⟩ :=
    outerLoop_counts div R (div32 piVal div) texID fuel c s hc hs hcf fuel 0
      { i := i, j := j, x := 0, y := 0, vertexWrites := [], indexWrites := [],
        broke := false }
      (by simp only; rw [hr]; exact hrf) (by simp only; rw [hr]; exact hcap)
  simp only at h2 h3 h4 h5
  rw [hr] at h2 h3 h5
  rw [hr2] at h3
  exact ⟨st, h1, h2, h3, h4, by rw [h5]; simp [seamWrites]⟩


/-! ## Invariants of the two loops -/

theorem innerLoop_preserves (P : GenState → Prop) (div R unit : Int) (texID : Int) (it : Int)
    (hv : ∀ ip st, P st → P (cellVertices div R unit texID it ip st).1)
    (hi : ∀ ip st, P (cellVertices div R unit texID it ip st).1 →
      P (cellIndices unit it ip (cellVertices div R unit texID it ip st).2
        (cellVertices div R unit texID it ip st).1))
    (hb : ∀ st, P st → P { st with broke := true }) :
    ∀ (fuel : Nat) (ip : Int) (st st' : GenState),
      innerLoop div R unit texID it fuel ip st = some st' → P st → P st' := by
  intro fuel
  induction fuel with
  | zero =>
    intro ip st st' hrun hp
    rw [innerLoop_zero] at hrun
    by_cases hc : ip < mul64 (ofInt 2) piVal
    · simp [hc] at hrun
    · simp only [hc, if_false, Option.some.injEq] at hrun
      subst hrun; exact hp
  | succ fuel ih =>
    intro ip st st' hrun hp
    rw [innerLoop_succ] at hrun
    by_cases hc : ip < mul64 (ofInt 2) piVal
    · simp only [hc, if_true] at hrun
      by_cases hbr : maxShapes * 3 < (cellVertices div R unit texID it ip st).1.i
      · simp only [hbr, if_true, Option.some.injEq] at hrun
        subst hrun; exact hb _ (hv ip st hp)
      · simp only [hbr, if_false] at hrun
        exact ih _ _ _ hrun (hi ip st (hv ip st hp))
    · simp only [hc, if_false, Option.some.injEq] at hrun
      subst hrun; exact hp

theorem outerLoop_preserves (P : GenState → Prop) (div R unit : Int) (texID : Int) (fuel : Nat)
    (hv : ∀ it ip st, P st → P (cellVertices div R unit texID it ip st).1)
    (hi : ∀ it ip st, P (cellVertices div R unit texID it ip st).1 →
      P (cellIndices unit it ip (cellVertices div R unit texID it ip st).2
        (cellVertices div R unit texID it ip st).1))
    (hb : ∀ st, P st → P { st with broke := true })
    (hx : ∀ st, P st → P { st with x := 0 })
    (hy : ∀ st y, P st → P { st with y := y }) :
    ∀ (n : Nat) (it : Int) (st st' : GenState),
      outerLoop div R unit texID fuel n it st = some st' → P st → P st' := by
  intro n
  induction n with
  | zero =>
    intro it st st' hrun hp
    rw [outerLoop_zero] at hrun
    by_cases hc : it < piVal
    · simp [hc] at hrun
    · simp only [hc, if_false, Option.some.injEq] at hrun
      subst hrun; exact hp
  | succ n ih =>
    intro it st st' hrun hp
    rw [outerLoop_succ] at hrun
    by_cases hc : it < piVal
    · simp only [hc, if_true] at hrun
      cases hin : innerLoop div R unit texID it fuel 0 { st with x := 0 } with
      | none => simp [hin] at hrun
      | some st1 =>
        simp only [hin] at hrun
        have h1 := innerLoop_preserves P div R unit texID it (hv it) (hi it) hb fuel 0 _ st1
          hin (hx st hp)
        exact ih _ _ _ hrun (hy st1 _ h1)
    · simp only [hc, if_false, Option.some.injEq] at hrun
      subst hrun; exact hp

theorem cellVertexList_slot (div R unit : Int) (texID : Int) (it y ip x slot : Int)
    (w : VertexWrite) (hw : w ∈ cellVertexList div R unit texID it y ip x slot) :
    slot ≤ w.slot ∧ w.slot < slot + 3 + (if seamAngle unit < ip then 1 else 0) := by
  unfold cellVertexList at hw
  simp only at hw
  split_ifs at hw ⊢ with h <;> simp only [List.mem_cons, List.mem_singleton, List.not_mem_nil,
    or_false] at hw <;> rcases hw with rfl | rfl | rfl | rfl <;> simp only <;> omega

theorem cellVertexList_length (div R unit : Int) (texID : Int) (it y ip x slot : Int) :
    ((cellVertexList div R unit texID it y ip x slot).length : Int)
      = 3 + (if seamAngle unit < ip then 1 else 0) := by
  unfold cellVertexList
  simp only
  split_ifs <;> rfl

theorem slotsOK_cellVertices (div R unit : Int) (texID : Int) (i0 j0 : Int) (it ip : Int)
    (st : GenState) (h : SlotsOK i0 j0 st) :
    SlotsOK i0 j0 (cellVertices div R unit texID it ip st).1 := by
  obtain ⟨h1, h2, h3, h4, h5, h6⟩ := h
  have hci := cellVertices_i div R unit texID it ip st
  have ho := cellVertices_snd div R unit texID it ip st
  have ho0 : 0 ≤ (cellVertices div R unit texID it ip st).2 := by
    rw [ho]; split_ifs <;> omega
  refine ⟨?_, ?_, ?_, ?_, ?_, ?_⟩
  · intro w hw
    rw [cellVertices_vertexWrites, List.mem_append] at hw
    rw [hci, ho]
    rcases hw with hw | hw
    · have := cellVertexList_slot _ _ _ _ _ _ _ _ _ w hw
      omega
    · have := h1 w hw
      split_ifs <;> omega
  · rw [cellVertices_indexWrites, cellVertices_j]; exact h2
  · omega
  · rw [cellVertices_j]; exact h4
  · rw [cellVertices_vertexWrites, List.length_append, hci, ho]
    push_cast
    rw [cellVertexList_length]
    omega
  · rw [cellVertices_indexWrites, cellVertices_j]; exact h6

theorem slotsOK_cellIndices (unit it ip o : Int) (i0 j0 : Int) (st : GenState) (ho : 0 ≤ o)
    (h : SlotsOK i0 j0 st) : SlotsOK i0 j0 (cellIndices unit it ip o st) := by
  obtain ⟨h1, h2, h3, h4, h5, h6⟩ := h
  have hjj := cellIndices_j unit it ip o st
  have hjle : st.j ≤ (cellIndices unit it ip o st).j := by rw [hjj]; split_ifs <;> omega
  refine ⟨?_, ?_, ?_, ?_, ?_, ?_⟩
  · rw [cellIndices_vertexWrites, cellIndices_i]; exact h1
  · intro w hw
    rcases cellIndices_mem unit it ip o st ho w hw with hw | ⟨a, b, _⟩
    · have := h2 w hw; omega
    · omega
  · rw [cellIndices_i]; exact h3
  · omega
  · rw [cellIndices_vertexWrites, cellIndices_i]; exact h5
  · rw [cellIndices_length, hjj]; omega

/-- The writes of a run fill consecutive slots from `i` and from `j`. -/
theorem generateSphereRun_slots (fuel : Nat) (div R i j texID : Int) (st : GenState)
    (hrun : generateSphereRun fuel div R i j texID = some st) : SlotsOK i j st := by
  apply outerLoop_preserves (SlotsOK i j) div R (div32 piVal div) texID fuel
    (fun it ip st h => slotsOK_cellVertices div R _ texID i j it ip st h)
    (fun it ip st h => slotsOK_cellIndices _ it ip _ i j _
      (by rw [cellVertices_snd]; split_ifs <;> omega) h)
    (fun st h => h) (fun st h => h) (fun st y h => h) fuel 0 _ st hrun
  refine ⟨?_, ?_, le_refl _, le_refl _, ?_, ?_⟩ <;> simp

/-! ## Where a vertex write comes from -/

theorem innerLoop_vertexWrites (div R unit : Int) (texID : Int) (it : Int) :
    ∀ (fuel : Nat) (ip : Int) (st st' : GenState),
      innerLoop div R unit texID it fuel ip st = some st' →
      st'.y = st.y ∧ ∀ w ∈ st'.vertexWrites, w ∈ st.vertexWrites ∨
        ∃ c ∈ colTrace div unit fuel ip st.x, ∃ slot,
          w ∈ cellVertexList div R unit texID it st.y c.1 c.2 slot := by
  intro fuel
  induction fuel with
  | zero =>
    intro ip st st' hrun
    rw [innerLoop_zero] at hrun
    by_cases hc : ip < mul64 (ofInt 2) piVal
    · simp [hc] at hrun
    · simp only [hc, if_false, Option.some.injEq] at hrun
      subst hrun; exact ⟨rfl, fun w hw => Or.inl hw⟩
  | succ fuel ih =>
    intro ip st st' hrun
    rw [innerLoop_succ] at hrun
    by_cases hc : ip < mul64 (ofInt 2) piVal
    · simp only [hc, if_true] at hrun
      have hvw := cellVertices_vertexWrites div R unit texID it ip st
      have hcy := cellVertices_y div R unit texID it ip st
      have hcx := cellVertices_x div R unit texID it ip st
      have hhead : ∀ w ∈ (cellVertices div R unit texID it ip st).1.vertexWrites,
          w ∈ st.vertexWrites ∨ ∃ c ∈ colTrace div unit (fuel + 1) ip st.x, ∃ slot,
            w ∈ cellVertexList div R unit texID it st.y c.1 c.2 slot := by
        intro w hw
        rw [hvw, List.mem_append] at hw
        rcases hw with hw | hw
        · right
          refine ⟨(ip, st.x), ?_, st.i, hw⟩
          simp [colTrace, hc]
        · exact Or.inl hw
      by_cases hbr : maxShapes * 3 < (cellVertices div R unit texID it ip st).1.i
      · simp only [hbr, if_true, Option.some.injEq] at hrun
        subst hrun
        exact ⟨hcy, hhead⟩
      · simp only [hbr, if_false] at hrun
        obtain ⟨hy, hw⟩ := ih _ _ _ hrun
        rw [cellIndices_y, hcy] at hy
        rw [cellIndices_y, hcy, cellIndices_x, hcx] at hw
        refine ⟨hy, fun w hmem => ?_⟩
        rcases hw w hmem with h | ⟨c, hcmem, slot, h⟩
        · rw [cellIndices_vertexWrites] at h
          exact hhead w h
        · right
          refine ⟨c, ?_, slot, h⟩
          simp only [colTrace, hc, if_true, List.mem_cons]
          exact Or.inr hcmem
    · simp only [hc, if_false, Option.some.injEq] at hrun
      subst hrun; exact ⟨rfl, fun w hw => Or.inl hw⟩

theorem outerLoop_vertexWrites (div R unit : Int) (texID : Int) (fuel : Nat) :
    ∀ (n : Nat) (it : Int) (st st' : GenState),
      outerLoop div R unit texID fuel n it st = some st' →
      ∀ w ∈ st'.vertexWrites, w ∈ st.vertexWrites ∨
        ∃ r ∈ rowTrace div unit n it st.y, ∃ c ∈ colTrace div unit fuel 0 0, ∃ slot,
          w ∈ cellVertexList div R unit texID r.1 r.2 c.1 c.2 slot := by
  intro n
  induction n with
  | zero =>
    intro it st st' hrun
    rw [outerLoop_zero] at hrun
    by_cases hc : it < piVal
    · simp [hc] at hrun
    · simp only [hc, if_false, Option.some.injEq] at hrun
      subst hrun; exact fun w hw => Or.inl hw
  | succ n ih =>
    intro it st st' hrun
    rw [outerLoop_succ] at hrun
    by_cases hc : it < piVal
    · simp only [hc, if_true] at hrun
      cases hin : innerLoop div R unit texID it fuel 0 { st with x := 0 } with
      | none => simp [hin] at hrun
      | some st1 =>
        simp only [hin] at hrun
        obtain ⟨hy, hw1⟩ := innerLoop_vertexWrites div R unit texID it fuel 0 _ st1 hin
        simp only at hy hw1
        have hw2 := ih _ _ _ hrun
        simp only at hw2
        rw [hy] at hw2
        intro w hmem
        rcases hw2 w hmem with h | ⟨r, hr, c, hcm, slot, h⟩
        · rcases hw1 w h with h | ⟨c, hcm, slot, h⟩
          · exact Or.inl h
          · right
            refine ⟨(it, st.y), ?_, c, hcm, slot, h⟩
            simp [rowTrace, hc]
        · right
          refine ⟨r, ?_, c, hcm, slot, h⟩
          simp only [rowTrace, hc, if_true, List.mem_cons]
          exact Or.inr hr
    · simp only [hc, if_false, Option.some.injEq] at hrun
      subst hrun; exact fun w hw => Or.inl hw

/-- Every vertex written by `generateSphere` is one of the (three or four) vertices of a
cell whose row and column are heads of the row loop and of the column loop. -/
theorem generateSphereRun_vertexWrites (fuel : Nat) (div R i j texID : Int) (st : GenState)
    (hrun : generateSphereRun fuel div R i j texID = some st) :
    ∀ w ∈ st.vertexWrites,
      ∃ r ∈ rowTrace div (div32 piVal div) fuel 0 0,
        ∃ c ∈ colTrace div (div32 piVal div) fuel 0 0, ∃ slot,
          w ∈ cellVertexList div R (div32 piVal div) texID r.1 r.2 c.1 c.2 slot := by
  intro w hw
  rcases outerLoop_vertexWrites div R (div32 piVal div) texID fuel fuel 0 _ st hrun w hw
    with h | h
  · simp at h
  · exact h

/-! ## Loop control for the divisions 3, 20, 40 and 100 -/

theorem trace_div3 :
    (rowTrace (ofInt 3) (div32 piVal (ofInt 3)) 100 0 0).length = 3 ∧
    (rowTrace (ofInt 3) (div32 piVal (ofInt 3)) 100 0 0).countP
      (hasSecond (div32 piVal (ofInt 3))) = 2 ∧
    (colTrace (ofInt 3) (div32 piVal (ofInt 3)) 100 0 0).length = 7 ∧
    (colTrace (ofInt 3) (div32 piVal (ofInt 3)) 100 0 0).countP
      (isSeam (div32 piVal (ofInt 3))) = 1 := by decide!

theorem trace_div20 :
    (rowTrace (ofInt 20) (div32 piVal (ofInt 20)) 1000 0 0).length = 20 ∧
    (rowTrace (ofInt 20) (div32 piVal (ofInt 20)) 1000 0 0).countP
      (hasSecond (div32 piVal (ofInt 20))) = 19 ∧
    (colTrace (ofInt 20) (div32 piVal (ofInt 20)) 1000 0 0).length = 40 ∧
    (colTrace (ofInt 20) (div32 piVal (ofInt 20)) 1000 0 0).countP
      (isSeam (div32 piVal (ofInt 20))) = 1 := by decide!

theorem trace_div40 :
    (rowTrace (ofInt 40) (div32 piVal (ofInt 40)) 1000 0 0).length = 40 ∧
    (rowTrace (ofInt 40) (div32 piVal (ofInt 40)) 1000 0 0).countP
      (hasSecond (div32 piVal (ofInt 40))) = 39 ∧
    (colTrace (ofInt 40) (div32 piVal (ofInt 40)) 1000 0 0).length = 80 ∧
    (colTrace (ofInt 40) (div32 piVal (ofInt 40)) 1000 0 0).countP
      (isSeam (div32 piVal (ofInt 40))) = 1 := by decide!

theorem trace_div100 :
    (rowTrace (ofInt 100) (div32 piVal (ofInt 100)) 1000 0 0).length = 100 ∧
    (rowTrace (ofInt 100) (div32 piVal (ofInt 100)) 1000 0 0).countP
      (hasSecond (div32 piVal (ofInt 100))) = 99 ∧
    (colTrace (ofInt 100) (div32 piVal (ofInt 100)) 1000 0 0).length = 200 ∧
    (colTrace (ofInt 100) (div32 piVal (ofInt 100)) 1000 0 0).countP
      (isSeam (div32 piVal (ofInt 100))) = 1 := by decide!

/-- The counters of `generateSphere` for `div = 20`, within the capacity. -/
theorem run_div20 (R i j texID : Int) (hcap : i + 2420 ≤ maxShapes * 3) :
    ∃ st, generateSphereRun 1000 (ofInt 20) R i j texID = some st ∧
      st.i = i + 2420 ∧ st.j = j + 4680 ∧ st.broke = false ∧ seamWrites st = 20 := by
  obtain ⟨a, b, c, d⟩ := trace_div20
  obtain ⟨st, h1, h2, h3, h4, h5⟩ := generateSphereRun_counts 1000 (ofInt 20) R i j texID
    20 19 40 1 a b c d (by norm_num) (by norm_num) (by push_cast; omega)
  exact ⟨st, h1, by rw [h2]; norm_num, by rw [h3]; push_cast; ring, h4, by rw [h5]⟩

/-- The counters of `generateSphere` for `div = 40`, within the capacity. -/
theorem run_div40 (R i j texID : Int) (hcap : i + 9640 ≤ maxShapes * 3) :
    ∃ st, generateSphereRun 1000 (ofInt 40) R i j texID = some st ∧
      st.i = i + 9640 ∧ st.j = j + 18960 ∧ st.broke = false ∧ seamWrites st = 40 := by
  obtain ⟨a, b, c, d⟩ := trace_div40
  obtain ⟨st, h1, h2, h3, h4, h5⟩ := generateSphereRun_counts 1000 (ofInt 40) R i j texID
    40 39 80 1 a b c d (by norm_num) (by norm_num) (by push_cast; omega)
  exact ⟨st, h1, by rw [h2]; norm_num, by rw [h3]; push_cast; ring, h4, by rw [h5]⟩

/-- The counters of `generateSphere` for `div = 100`, within the capacity. -/
theorem run_div100 (R i j texID : Int) (hcap : i + 60100 ≤ maxShapes * 3) :
    ∃ st, generateSphereRun 1000 (ofInt 100) R i j texID = some st ∧
      st.i = i + 60100 ∧ st.j = j + 119400 ∧ st.broke = false ∧ seamWrites st = 100 := by
  obtain ⟨a, b, c, d⟩ := trace_div100
  obtain ⟨st, h1, h2, h3, h4, h5⟩ := generateSphereRun_counts 1000 (ofInt 100) R i j texID
    100 99 200 1 a b c d (by norm_num) (by norm_num) (by push_cast; omega)
  exact ⟨st, h1, by rw [h2]; norm_num, by rw [h3]; push_cast; ring, h4, by rw [h5]⟩

/-- C2, as amended: for the divisions the program uses (20, 40 and 100), every radius and
all offsets that leave room in the arrays, `generateSphere` returns, the capacity `break`
is not taken, and the number of vertices produced, `lastVertex - i + 1`, is
`6 * div * div + div`: three vertices for each cell of the `div` by `2 * div` grid and one
seam vertex per row. -/
theorem generateSphere_vertex_count (d : Int) (R i j texID : Int)
    (hd : d = 20 ∨ d = 40 ∨ d = 100) (hcap : i + (6 * d * d + d) ≤ maxShapes * 3) :
    ∃ st, generateSphereRun 1000 (ofInt d) R i j texID = some st ∧ st.broke = false ∧
      (result st).lastVertex - i + 1 = 6 * d * d + d ∧
      (st.vertexWrites.length : Int) = 6 * d * d + d := by
  rcases hd with rfl | rfl | rfl
  · obtain ⟨st, h1, h2, _, h4, _⟩ := run_div20 R i j texID (by omega)
    have hs := (generateSphereRun_slots _ _ _ _ _ _ st h1).2.2.2.2.1
    exact ⟨st, h1, h4, by simp only [result]; omega, by omega⟩
  · obtain ⟨st, h1, h2, _, h4, _⟩ := run_div40 R i j texID (by omega)
    have hs := (generateSphereRun_slots _ _ _ _ _ _ st h1).2.2.2.2.1
    exact ⟨st, h1, h4, by simp only [result]; omega, by omega⟩
  · obtain ⟨st, h1, h2, _, h4, _⟩ := run_div100 R i j texID (by omega)
    have hs := (generateSphereRun_slots _ _ _ _ _ _ st h1).2.2.2.2.1
    exact ⟨st, h1, h4, by simp only [result]; omega, by omega⟩

/-- Witness of `generateSphere_vertex_count`: the moon's division 20 from offsets 0, 0. -/
theorem generateSphere_vertex_count_witness :
    ((20 : Int) = 20 ∨ (20 : Int) = 40 ∨ (20 : Int) = 100) ∧
    (0 : Int) + (6 * 20 * 20 + 20) ≤ maxShapes * 3 ∧
    ∃ st, generateSphereRun 1000 (ofInt 20) one 0 0 2 = some st ∧ st.broke = false ∧
      (result st).lastVertex - 0 + 1 = 6 * 20 * 20 + 20 ∧
      (st.vertexWrites.length : Int) = 6 * 20 * 20 + 20 :=
  ⟨Or.inl rfl, by decide, generateSphere_vertex_count 20 one 0 0 2 (Or.inl rfl) (by decide)⟩

/-- C2, counterexample: for `div = 3` from offsets 0, 0 the capacity `break` is not taken
and `generateSphere` produces 66 vertices, not `2 * 3 * 3 + 3 = 21`. -/
theorem generateSphere_vertex_count_div3 :
    ∃ st, generateSphereRun 100 (ofInt 3) one 0 0 0 = some st ∧ st.broke = false ∧
      (result st).lastVertex - 0 + 1 = 66 ∧
      (result st).lastVertex - 0 + 1 ≠ 2 * 3 * 3 + 3 := by
  obtain ⟨a, b, c, d⟩ := trace_div3
  obtain ⟨st, h1, h2, h3, h4, h5⟩ := generateSphereRun_counts 100 (ofInt 3) one 0 0 0
    3 2 7 1 a b c d (by norm_num) (by norm_num) (by decide)
  refine ⟨st, h1, h4, ?_, ?_⟩ <;> simp only [result] <;> rw [h2] <;> norm_num

/-- Witness of `generateSphere_indices_in_range`: the run for `div = 3` from offsets 0, 0. -/
theorem generateSphere_indices_in_range_witness :
    ofInt 3 ≤ ofInt 3 ∧
    ∃ st, generateSphereRun 100 (ofInt 3) one 0 0 0 = some st ∧
      ∀ w ∈ st.indexWrites,
        (0 ≤ w.slot ∧ w.slot ≤ (result st).lastIndex) ∧
          (0 ≤ w.value ∧ w.value ≤ (result st).lastVertex) := by
  obtain ⟨a, b, c, d⟩ := trace_div3
  obtain ⟨st, h1, _⟩ := generateSphereRun_counts 100 (ofInt 3) one 0 0 0
    3 2 7 1 a b c d (by norm_num) (by norm_num) (by decide)
  exact ⟨le_refl _, st, h1,
    generateSphere_indices_in_range 100 (ofInt 3) one 0 0 0 st (le_refl _) h1⟩

/-! ## Capacity of the arrays -/

/-- C9, at the failing input `generateSphere(3, 1, 196600, 196600, 0)`: the call
returns with the capacity `break` taken, after writing `vertices[k]` for some
`k ≥ maxShapes * 3` and `indices[k]` for some `k ≥ maxShapes * 3`, past the end of both
arrays. -/
theorem generateSphere_writes_past_capacity :
    ∃ st, generateSphereRun 100 (ofInt 3) one 196600 196600 0 = some st ∧ st.broke = true ∧
      (∃ w ∈ st.vertexWrites, maxShapes * 3 ≤ w.slot) ∧
      (∃ w ∈ st.indexWrites, maxShapes * 3 ≤ w.slot) := by
  have h : ((generateSphereRun 100 (ofInt 3) one 196600 196600 0).any fun st =>
      st.broke && st.vertexWrites.any (fun w => decide (maxShapes * 3 ≤ w.slot)) &&
        st.indexWrites.any (fun w => decide (maxShapes * 3 ≤ w.slot))) = true := by decide!
  cases hrun : generateSphereRun 100 (ofInt 3) one 196600 196600 0 with
  | none => rw [hrun] at h; simp at h
  | some st =>
    rw [hrun] at h
    simp only [Option.any_some, Bool.and_eq_true, List.any_eq_true, decide_eq_true_eq] at h
    exact ⟨st, rfl, h.1.1, h.1.2, h.2⟩

/-! ## The scene built by `InitializeGeometry` -/

/-- The result of `InitializeGeometry` from the states in which its four calls end. -/
theorem InitializeGeometry_eq (fuel : Nat) (earthR moonR sunR : Int) (s0 s1 s2 s3 : GenState)
    (r0 : generateSphereRun fuel earthResolution earthR 0 0 0 = some s0)
    (r1 : generateSphereRun fuel starResolution starR ((result s0).lastVertex + 1)
      ((result s0).lastIndex + 1) 1 = some s1)
    (r2 : generateSphereRun fuel moonResolution moonR ((result s1).lastVertex + 1)
      ((result s1).lastIndex + 1) 2 = some s2)
    (r3 : generateSphereRun fuel sunResolution sunR ((result s2).lastVertex + 1)
      ((result s2).lastIndex + 1) 3 = some s3) :
    InitializeGeometry fuel earthR moonR sunR = some
      { spheres := [result s0, result s1, result s2, result s3]
        geometry := { elementCount := (result s3).lastIndex }
        vertexWrites :=
          s3.vertexWrites ++ s2.vertexWrites ++ s1.vertexWrites ++ s0.vertexWrites
        indexWrites :=
          s3.indexWrites ++ s2.indexWrites ++ s1.indexWrites ++ s0.indexWrites
        broke := s0.broke || s1.broke || s2.broke || s3.broke } := by
  unfold InitializeGeometry
  simp only [r0, r1, r2, r3]

/-- The four chained calls of `InitializeGeometry` return, and these are their results. -/
theorem InitializeGeometry_scene (earthR moonR sunR : Int) :
    ∃ g, InitializeGeometry 1000 earthR moonR sunR = some g ∧
      g.spheres = [⟨9639, 18959⟩, ⟨19279, 37919⟩, ⟨21699, 42599⟩, ⟨81799, 161999⟩] ∧
      g.geometry.elementCount = 161999 ∧ g.broke = false ∧
      g.vertexWrites.length = 81800 ∧ g.indexWrites.length = 162000 ∧
      (∀ w ∈ g.vertexWrites, 0 ≤ w.slot ∧ w.slot < 81800) ∧
      (∀ w ∈ g.indexWrites, 0 ≤ w.slot ∧ w.slot < 162000) := by
  have hm : maxShapes * 3 = 196608 := by decide
  obtain ⟨s0, r0, i0, j0, b0, _⟩ := run_div40 earthR 0 0 0 (by omega)
  have e0 : (result s0).lastVertex + 1 = 9640 ∧ (result s0).lastIndex + 1 = 18960 := by
    simp only [result]; omega
  obtain ⟨s1, r1, i1, j1, b1, _⟩ := run_div40 starR ((result s0).lastVertex + 1)
    ((result s0).lastIndex + 1) 1 (by omega)
  have e1 : (result s1).lastVertex + 1 = 19280 ∧ (result s1).lastIndex + 1 = 37920 := by
    simp only [result]; omega
  obtain ⟨s2, r2, i2, j2, b2, _⟩ := run_div20 moonR ((result s1).lastVertex + 1)
    ((result s1).lastIndex + 1) 2 (by omega)
  have e2 : (result s2).lastVertex + 1 = 21700 ∧ (result s2).lastIndex + 1 = 42600 := by
    simp only [result]; omega
  obtain ⟨s3, r3, i3, j3, b3, _⟩ := run_div100 sunR ((result s2).lastVertex + 1)
    ((result s2).lastIndex + 1) 3 (by omega)
  obtain ⟨v0, w0, _, _, lv0, lw0⟩ := generateSphereRun_slots _ _ _ _ _ _ s0 r0
  obtain ⟨v1, w1, _, _, lv1, lw1⟩ := generateSphereRun_slots _ _ _ _ _ _ s1 r1
  obtain ⟨v2, w2, _, _, lv2, lw2⟩ := generateSphereRun_slots _ _ _ _ _ _ s2 r2
  obtain ⟨v3, w3, _, _, lv3, lw3⟩ := generateSphereRun_slots _ _ _ _ _ _ s3 r3
  have hg := InitializeGeometry_eq 1000 earthR moonR sunR s0 s1 s2 s3 r0 r1 r2 r3
  simp only [result] at e0 e1 e2 i1 i2 i3 j1 j2 j3 v1 v2 v3 w1 w2 w3 lv1 lv2 lv3 lw1 lw2 lw3
  refine ⟨_, hg, ?_, ?_, ?_, ?_, ?_, ?_, ?_⟩
  · simp only [result, List.cons.injEq, MySphere.mk.injEq, and_true]
    omega
  · simp only [result]; omega
  · simp [b0, b1, b2, b3]
  · simp only [List.length_append]; omega
  · simp only [List.length_append]; omega
  · intro w hw
    simp only [List.mem_append] at hw
    rcases hw with ((hw | hw) | hw) | hw
    · have := v3 w hw; omega
    · have := v2 w hw; omega
    · have := v1 w hw; omega
    · have := v0 w hw; omega
  · intro w hw
    simp only [List.mem_append] at hw
    rcases hw with ((hw | hw) | hw) | hw
    · have := w3 w hw; omega
    · have := w2 w hw; omega
    · have := w1 w hw; omega
    · have := w0 w hw; omega

/-- C10: whenever `InitializeGeometry` returns, `elementCount` is one less than the number
of index slots the four calls have written (it is the position of the last index, not the
count). -/
theorem InitializeGeometry_elementCount (fuel : Nat) (earthR moonR sunR : Int) (g : Scene)
    (h : InitializeGeometry fuel earthR moonR sunR = some g) :
    g.geometry.elementCount = (g.indexWrites.length : Int) - 1 ∧
      g.geometry.elementCount ≠ (g.indexWrites.length : Int) := by
  unfold InitializeGeometry at h
  cases r0 : generateSphereRun fuel earthResolution earthR 0 0 0 with
  | none => simp [r0] at h
  | some s0 =>
    simp only [r0] at h
    cases r1 : generateSphereRun fuel starResolution starR ((result s0).lastVertex + 1)
        ((result s0).lastIndex + 1) 1 with
    | none => simp [r1] at h
    | some s1 =>
      simp only [r1] at h
      cases r2 : generateSphereRun fuel moonResolution moonR ((result s1).lastVertex + 1)
          ((result s1).lastIndex + 1) 2 with
      | none => simp [r2] at h
      | some s2 =>
        simp only [r2] at h
        cases r3 : generateSphereRun fuel sunResolution sunR ((result s2).lastVertex + 1)
            ((result s2).lastIndex + 1) 3 with
        | none => simp [r3] at h
        | some s3 =>
          simp only [r3, Option.some.injEq] at h
          subst h
          have l0 := (generateSphereRun_slots _ _ _ _ _ _ s0 r0).2.2.2.2.2
          have l1 := (generateSphereRun_slots _ _ _ _ _ _ s1 r1).2.2.2.2.2
          have l2 := (generateSphereRun_slots _ _ _ _ _ _ s2 r2).2.2.2.2.2
          have l3 := (generateSphereRun_slots _ _ _ _ _ _ s3 r3).2.2.2.2.2
          simp only [result] at l1 l2 l3 ⊢
          simp only [List.length_append]
          push_cast
          constructor <;> omega

/-- Witness of `InitializeGeometry_elementCount`: the scene of the program, where
`elementCount` is 161999 and 162000 indices are written. -/
theorem InitializeGeometry_elementCount_witness :
    ∃ g, InitializeGeometry 1000 one one one = some g ∧
      g.geometry.elementCount = 161999 ∧ g.indexWrites.length = 162000 ∧
      g.geometry.elementCount = (g.indexWrites.length : Int) - 1 ∧
      g.geometry.elementCount ≠ (g.indexWrites.length : Int) := by
  obtain ⟨g, hg, _, he, _, _, hl, _⟩ := InitializeGeometry_scene one one one
  exact ⟨g, hg, he, hl, InitializeGeometry_elementCount 1000 one one one g hg⟩

/-- C15: for the scene of the program (divisions 40, 40, 20 and 100 chained from the
offsets 0, 0, whatever the radii), `InitializeGeometry` returns, the capacity `break` is
never taken, 81800 vertices and 162000 indices are produced, both at most
`maxShapes * 3 = 196608`, and every write to `vertices`, `texCoords` and `indices` is at
a position inside the arrays. -/
theorem InitializeGeometry_within_capacity (earthR moonR sunR : Int) :
    ∃ g, InitializeGeometry 1000 earthR moonR sunR = some g ∧ g.broke = false ∧
      g.vertexWrites.length = 81800 ∧ g.indexWrites.length = 162000 ∧
      (g.vertexWrites.length : Int) ≤ maxShapes * 3 ∧
      (g.indexWrites.length : Int) ≤ maxShapes * 3 ∧
      maxShapes * 3 = 196608 ∧
      (∀ w ∈ g.vertexWrites, 0 ≤ w.slot ∧ w.slot < maxShapes * 3) ∧
      (∀ w ∈ g.indexWrites, 0 ≤ w.slot ∧ w.slot < maxShapes * 3) := by
  obtain ⟨g, hg, _, _, hb, hv, hi, hvs, his⟩ := InitializeGeometry_scene earthR moonR sunR
  have hm : maxShapes * 3 = 196608 := by decide
  refine ⟨g, hg, hb, hv, hi, by rw [hv, hm]; norm_num, by rw [hi, hm]; norm_num, hm, ?_, ?_⟩
  · intro w hw; have := hvs w hw; omega
  · intro w hw; have := his w hw; omega

/-! ## Texture coordinates and the seam vertex -/

/-- The seam vertex of a cell: it is written only past the seam angle, at the azimuth
`nextp`, with the texture coordinate `seamU`. -/
theorem cellVertexList_seam (div R unit : Int) (texID : Int) (it y ip x slot : Int)
    (w : VertexWrite) (hw : w ∈ cellVertexList div R unit texID it y ip x slot)
    (h4 : w.corner = 4) :
    isSeam unit (ip, x) = true ∧ w.azimuth = f32 (ip + unit) ∧ w.u = seamU div (ip, x) := by
  unfold cellVertexList at hw
  simp only at hw
  split_ifs at hw with hs <;>
    simp only [List.mem_cons, List.mem_singleton, List.not_mem_nil, or_false] at hw
  · rcases hw with rfl | rfl | rfl | rfl
    · exact ⟨by simp [isSeam, hs], rfl, rfl⟩
    · simp at h4
    · simp at h4
    · simp at h4
  · rcases hw with rfl | rfl | rfl <;> simp at h4

theorem seamColumnsOK_20 : seamColumnsOK 20 = true := by decide!

theorem seamColumnsOK_40 : seamColumnsOK 40 = true := by decide!

theorem seamColumnsOK_100 : seamColumnsOK 100 = true := by decide!

/-- The seam vertices of a run, given the check of the column loop. -/
theorem seam_writes_of_check (d : Int) (R i j texID : Int) (st : GenState)
    (hchk : seamColumnsOK d = true)
    (hrun : generateSphereRun 1000 (ofInt d) R i j texID = some st) :
    ∀ w ∈ st.vertexWrites, w.corner = 4 →
      ¬ (w.azimuth < mul64 (ofInt 2) piVal) ∧ 0 ≤ w.u ∧ w.u * 2 ^ 20 < one := by
  intro w hw h4
  obtain ⟨r, _, c, hc, slot, hmem⟩ :=
    generateSphereRun_vertexWrites 1000 (ofInt d) R i j texID st hrun w hw
  obtain ⟨hs, haz, hu⟩ := cellVertexList_seam _ _ _ _ _ _ _ _ _ w hmem h4
  have := (List.all_eq_true.1 hchk) c hc
  simp only [hs, Bool.not_true, Bool.false_or, decide_eq_true_eq] at this
  rw [haz, hu]
  exact this

/-- C12, as amended: for the divisions the program uses (20, 40 and 100) and offsets that
leave room in the arrays, `generateSphere` writes exactly `div` seam vertices p4, one for
each of its `div` rows; each of them is written by the cell of the last column of its row
(the column loop stops at its azimuth `nextp`), and its texture coordinate U is
`1.0 - x` at the end of the row, a value in `[0, 2^-20)`: next to 0.0, not 1.0. -/
theorem seam_vertex_last_column (d : Int) (R i j texID : Int)
    (hd : d = 20 ∨ d = 40 ∨ d = 100) (hcap : i + (6 * d * d + d) ≤ maxShapes * 3) :
    ∃ st, generateSphereRun 1000 (ofInt d) R i j texID = some st ∧ st.broke = false ∧
      (seamWrites st : Int) = d ∧
      ∀ w ∈ st.vertexWrites, w.corner = 4 →
        ¬ (w.azimuth < mul64 (ofInt 2) piVal) ∧ 0 ≤ w.u ∧ w.u * 2 ^ 20 < one := by
  rcases hd with rfl | rfl | rfl
  · obtain ⟨st, h1, _, _, h4, h5⟩ := run_div20 R i j texID (by omega)
    exact ⟨st, h1, h4, by rw [h5]; rfl,
      seam_writes_of_check 20 R i j texID st seamColumnsOK_20 h1⟩
  · obtain ⟨st, h1, _, _, h4, h5⟩ := run_div40 R i j texID (by omega)
    exact ⟨st, h1, h4, by rw [h5]; rfl,
      seam_writes_of_check 40 R i j texID st seamColumnsOK_40 h1⟩
  · obtain ⟨st, h1, _, _, h4, h5⟩ := run_div100 R i j texID (by omega)
    exact ⟨st, h1, h4, by rw [h5]; rfl,
      seam_writes_of_check 100 R i j texID st seamColumnsOK_100 h1⟩

/-- Witness of `seam_vertex_last_column`: the moon's division 20 from offsets 0, 0. -/
theorem seam_vertex_last_column_witness :
    ((20 : Int) = 20 ∨ (20 : Int) = 40 ∨ (20 : Int) = 100) ∧
    (0 : Int) + (6 * 20 * 20 + 20) ≤ maxShapes * 3 ∧
    ∃ st, generateSphereRun 1000 (ofInt 20) one 0 0 2 = some st ∧ st.broke = false ∧
      (seamWrites st : Int) = 20 ∧
      ∀ w ∈ st.vertexWrites, w.corner = 4 →
        ¬ (w.azimuth < mul64 (ofInt 2) piVal) ∧ 0 ≤ w.u ∧ w.u * 2 ^ 20 < one :=
  ⟨Or.inl rfl, by decide, seam_vertex_last_column 20 one 0 0 2 (Or.inl rfl) (by decide)⟩

/-- C12, counterexample: the call for the moon (`div = 20` from offsets 0, 0) writes a
seam vertex p4 whose texture coordinate U is not 1.0 (it is below `2^-20`). -/
theorem seam_vertex_u_not_one :
    ∃ st, generateSphereRun 1000 (ofInt 20) one 0 0 2 = some st ∧ st.broke = false ∧
      ∃ w ∈ st.vertexWrites, w.corner = 4 ∧ w.u ≠ one ∧ w.u * 2 ^ 20 < one := by
  obtain ⟨st, h1, _, _, h4, h5⟩ := run_div20 one 0 0 2 (by decide)
  have hpos : 0 < st.vertexWrites.countP (fun w => decide (w.corner = 4)) := by
    have : seamWrites st = 20 := h5
    unfold seamWrites at this
    omega
  obtain ⟨w, hw, hc⟩ := List.countP_pos_iff.1 hpos
  have hc4 : w.corner = 4 := by simpa using hc
  obtain ⟨_, _, hu⟩ := seam_writes_of_check 20 one 0 0 2 st seamColumnsOK_20 h1 w hw hc4
  have hone : one = 2 ^ 256 := one_eq
  refine ⟨st, h1, h4, w, hw, hc4, ?_, hu⟩
  intro h
  rw [h, hone] at hu
  norm_num at hu

/-- C11, at the failing inputs: the call `generateSphere(3, 1, 0, 0, 0)` returns without
the capacity `break` and writes a vertex whose texture coordinate U is negative; the call
for the moon, `generateSphere(20, 1, 0, 0, 2)`, writes a vertex whose texture coordinate V
is greater than 1. -/
theorem texture_coordinates_out_of_range :
    (∃ st, generateSphereRun 100 (ofInt 3) one 0 0 0 = some st ∧ st.broke = false ∧
      ∃ w ∈ st.vertexWrites, w.u < 0) ∧
    (∃ st, generateSphereRun 1000 (ofInt 20) one 0 0 2 = some st ∧ st.broke = false ∧
      ∃ w ∈ st.vertexWrites, one < w.v) := by
  have h3 : ((generateSphereRun 100 (ofInt 3) one 0 0 0).any fun st =>
      !st.broke && st.vertexWrites.any (fun w => decide (w.u < 0))) = true := by decide!
  have h20 : ((generateSphereRun 1000 (ofInt 20) one 0 0 2).any fun st =>
      !st.broke && st.vertexWrites.any (fun w => decide (one < w.v))) = true := by decide!
  constructor
  · cases hrun : generateSphereRun 100 (ofInt 3) one 0 0 0 with
    | none => rw [hrun] at h3; simp at h3
    | some st =>
      rw [hrun] at h3
      simp only [Option.any_some, Bool.and_eq_true, Bool.not_eq_true', List.any_eq_true,
        decide_eq_true_eq] at h3
      exact ⟨st, rfl, h3.1, h3.2⟩
  · cases hrun : generateSphereRun 1000 (ofInt 20) one 0 0 2 with
    | none => rw [hrun] at h20; simp at h20
    | some st =>
      rw [hrun] at h20
      simp only [Option.any_some, Bool.and_eq_true, Bool.not_eq_true', List.any_eq_true,
        decide_eq_true_eq] at h20
      exact ⟨st, rfl, h20.1, h20.2⟩

/-! ## Camera controller -/

theorem height_bounds : minHeight ≤ maxHeight := by decide!

theorem distance_bounds : minDistance ≤ maxDistance := by decide!

theorem initialCamera_inRange : CameraInRange initialCamera := by
  unfold CameraInRange; decide!

/-- The value `CursorPosCallback` computes for `cameraP` while dragging. -/
theorem CursorPosCallback_cameraP (st : Camera) (xpos ypos : Int) (h : st.rotating = true) :
    (CursorPosCallback st xpos ypos).cameraP = f32 (f64 (st.cameraP
      + div64 (mul64 scrollSpeed (f64 (xpos - st.mousex))) (ofInt wWidth))) := by
  unfold CursorPosCallback
  simp only [h, if_true]
  split_ifs <;> rfl

/-- The value `CursorPosCallback` computes for `cameraT` while dragging. -/
theorem CursorPosCallback_cameraT (st : Camera) (xpos ypos : Int) (h : st.rotating = true) :
    (CursorPosCallback st xpos ypos).cameraT =
      (if (if maxHeight < f32 (f64 (st.cameraT
            - div64 (mul64 scrollSpeed (f64 (ypos - st.mousey))) (ofInt wHeight)))
          then maxHeight
          else f32 (f64 (st.cameraT
            - div64 (mul64 scrollSpeed (f64 (ypos - st.mousey))) (ofInt wHeight)))) < minHeight
        then minHeight
        else (if maxHeight < f32 (f64 (st.cameraT
            - div64 (mul64 scrollSpeed (f64 (ypos - st.mousey))) (ofInt wHeight)))
          then maxHeight
          else f32 (f64 (st.cameraT
            - div64 (mul64 scrollSpeed (f64 (ypos - st.mousey))) (ofInt wHeight))))) := by
  unfold CursorPosCallback
  simp only [h, if_true]
  split_ifs <;> rfl

/-- The callback `CursorPosCallback` changes nothing but `cameraP` and `cameraT`. -/
theorem CursorPosCallback_others (st : Camera) (xpos ypos : Int) :
    (CursorPosCallback st xpos ypos).cameraR = st.cameraR ∧
    (CursorPosCallback st xpos ypos).camFocus = st.camFocus ∧
    (CursorPosCallback st xpos ypos).mousex = st.mousex ∧
    (CursorPosCallback st xpos ypos).mousey = st.mousey ∧
    (CursorPosCallback st xpos ypos).rotating = st.rotating := by
  unfold CursorPosCallback
  simp only
  split_ifs <;> exact ⟨rfl, rfl, rfl, rfl, rfl⟩

/-- The callback `CursorPosCallback` does nothing while not dragging. -/
theorem CursorPosCallback_idle (st : Camera) (xpos ypos : Int) (h : st.rotating = false) :
    CursorPosCallback st xpos ypos = st := by
  unfold CursorPosCallback
  simp [h]

/-- The value `ScrollCallback` computes for `cameraR`. -/
theorem ScrollCallback_cameraR (st : Camera) (xOffset yOffset : Int) :
    (ScrollCallback st xOffset yOffset).cameraR =
      (if maxDistance < (if f32 (f64 (st.cameraR - mul64 zoomSpeed yOffset)) < minDistance
          then minDistance else f32 (f64 (st.cameraR - mul64 zoomSpeed yOffset)))
        then maxDistance
        else (if f32 (f64 (st.cameraR - mul64 zoomSpeed yOffset)) < minDistance
          then minDistance else f32 (f64 (st.cameraR - mul64 zoomSpeed yOffset)))) := by
  unfold ScrollCallback
  simp only
  split_ifs <;> rfl

/-- The callback `ScrollCallback` changes nothing but `cameraR`. -/
theorem ScrollCallback_others (st : Camera) (xOffset yOffset : Int) :
    (ScrollCallback st xOffset yOffset).cameraP = st.cameraP ∧
    (ScrollCallback st xOffset yOffset).cameraT = st.cameraT ∧
    (ScrollCallback st xOffset yOffset).camFocus = st.camFocus ∧
    (ScrollCallback st xOffset yOffset).mousex = st.mousex ∧
    (ScrollCallback st xOffset yOffset).mousey = st.mousey ∧
    (ScrollCallback st xOffset yOffset).rotating = st.rotating := by
  unfold ScrollCallback
  simp only
  split_ifs <;> exact ⟨rfl, rfl, rfl, rfl, rfl, rfl⟩

theorem CursorPosCallback_inRange (st : Camera) (xpos ypos : Int) (h : CameraInRange st) :
    CameraInRange (CursorPosCallback st xpos ypos) := by
  have hb := height_bounds
  cases hr : st.rotating with
  | false => rw [CursorPosCallback_idle st xpos ypos hr]; exact h
  | true =>
    unfold CameraInRange
    rw [CursorPosCallback_cameraT st xpos ypos hr, (CursorPosCallback_others st xpos ypos).1]
    refine ⟨?_, h.2⟩
    split_ifs <;> constructor <;> omega

theorem ScrollCallback_inRange (st : Camera) (xOffset yOffset : Int) (h : CameraInRange st) :
    CameraInRange (ScrollCallback st xOffset yOffset) := by
  have hb := distance_bounds
  unfold CameraInRange
  rw [ScrollCallback_cameraR, (ScrollCallback_others st xOffset yOffset).2.1]
  refine ⟨h.1, ?_⟩
  split_ifs <;> constructor <;> omega

theorem MouseButtonCallback_inRange (st : Camera) (button action cx cy : Int)
    (h : CameraInRange st) : CameraInRange (MouseButtonCallback st button action cx cy) := by
  unfold MouseButtonCallback
  split_ifs <;> exact h

theorem handle_inRange (st : Camera) (e : Event) (h : CameraInRange st) :
    CameraInRange (handle st e) := by
  cases e with
  | mouseButton b a cx cy => exact MouseButtonCallback_inRange st b a cx cy h
  | cursorPos x y => exact CursorPosCallback_inRange st x y h
  | scroll x y => exact ScrollCallback_inRange st x y h

theorem handleAll_inRange (events : List Event) :
    ∀ st : Camera, CameraInRange st → CameraInRange (handleAll st events) := by
  induction events with
  | nil => intro st h; exact h
  | cons e es ih => intro st h; exact ih _ (handle_inRange st e h)

/-- C5: from the initial camera (`cameraT = piVal / 2`, `cameraR = 50`), after any finite
sequence of mouse-button, cursor-position and scroll events with arbitrary coordinates and
deltas, `minHeight ≤ cameraT ≤ maxHeight` and `minDistance ≤ cameraR ≤ maxDistance`. -/
theorem camera_stays_in_range (events : List Event) :
    minHeight ≤ (handleAll initialCamera events).cameraT ∧
    (handleAll initialCamera events).cameraT ≤ maxHeight ∧
    minDistance ≤ (handleAll initialCamera events).cameraR ∧
    (handleAll initialCamera events).cameraR ≤ maxDistance := by
  obtain ⟨⟨a, b⟩, c, d⟩ := handleAll_inRange events initialCamera initialCamera_inRange
  exact ⟨a, b, c, d⟩

theorem zero_drag_height : div64 (mul64 scrollSpeed (f64 0)) (ofInt wHeight) = 0 := by decide!

theorem idle_moves (later : List (Int × Int)) :
    ∀ st : Camera, st.rotating = false →
      handleAll st (later.map (fun m => Event.cursorPos m.1 m.2)) = st := by
  induction later with
  | nil => intro st _; rfl
  | cons m ms ih =>
    intro st h
    simp only [handleAll, List.map_cons, List.foldl_cons, handle]
    rw [CursorPosCallback_idle st m.1 m.2 h]
    exact ih st h

/-- C6: for the trace press at `(x0, y0)`, move to `(x1, y0)`, release, then any further
moves, starting from a camera whose altitude is a `float` inside `[minHeight, maxHeight]`:
the final azimuth is the initial azimuth plus `scrollSpeed * (x1 - x0) / wWidth` as the
program computes it, the altitude is unchanged, and both are already reached at the
release (the later moves change neither). -/
theorem drag_then_release (st : Camera) (x0 y0 x1 : Int) (later : List (Int × Int))
    (hfloat : f32 (f64 st.cameraT) = st.cameraT)
    (hrange : minHeight ≤ st.cameraT ∧ st.cameraT ≤ maxHeight) :
    (handleAll st (dragTrace x0 y0 x1 later)).cameraP =
        f32 (f64 (st.cameraP + div64 (mul64 scrollSpeed (f64 (x1 - x0))) (ofInt wWidth))) ∧
      (handleAll st (dragTrace x0 y0 x1 later)).cameraT = st.cameraT ∧
      handleAll st (dragTrace x0 y0 x1 later) = handleAll st (dragTrace x0 y0 x1 []) := by
  have key : ∀ l, handleAll st (dragTrace x0 y0 x1 l) =
      { CursorPosCallback { st with mousex := x0, mousey := y0, rotating := true } x1 y0
        with rotating := false } := by
    intro l
    simp only [dragTrace, handleAll, List.foldl_append, List.foldl_cons, List.foldl_nil, handle,
      MouseButtonCallback, GLFW_MOUSE_BUTTON_1, GLFW_PRESS, GLFW_RELEASE, if_true]
    have := idle_moves l
      { CursorPosCallback { st with mousex := x0, mousey := y0, rotating := true } x1 y0
        with rotating := false } rfl
    simp only [handleAll] at this
    simpa using this
  refine ⟨?_, ?_, ?_⟩
  · rw [key]
    exact CursorPosCallback_cameraP _ x1 y0 rfl
  · rw [key]
    simp only
    rw [CursorPosCallback_cameraT _ x1 y0 rfl]
    simp only [sub_self, zero_drag_height, sub_zero, hfloat]
    split_ifs <;> omega
  · rw [key, key]

/-- Witness of `drag_then_release`: the initial camera (azimuth `piVal / 2`), a drag by
100 pixels to the right, then two more moves. -/
theorem drag_then_release_witness :
    f32 (f64 initialCamera.cameraT) = initialCamera.cameraT ∧
    (minHeight ≤ initialCamera.cameraT ∧ initialCamera.cameraT ≤ maxHeight) ∧
    (handleAll initialCamera (dragTrace 0 0 (ofInt 100) [(ofInt 7, ofInt 9), (0, 0)])).cameraP =
        f32 (f64 (f32 (div64 piVal (ofInt 2))
          + div64 (mul64 scrollSpeed (f64 (ofInt 100 - 0))) (ofInt wWidth))) ∧
    (handleAll initialCamera (dragTrace 0 0 (ofInt 100) [(ofInt 7, ofInt 9), (0, 0)])).cameraT =
        initialCamera.cameraT := by
  have h1 : f32 (f64 initialCamera.cameraT) = initialCamera.cameraT := by decide!
  have h2 : minHeight ≤ initialCamera.cameraT ∧ initialCamera.cameraT ≤ maxHeight := by decide!
  have h := drag_then_release initialCamera 0 0 (ofInt 100) [(ofInt 7, ofInt 9), (0, 0)] h1 h2
  exact ⟨h1, h2, h.1, h.2.1⟩

/-- C7: for every camera (whatever its radius and its drag state) and every scroll delta,
`ScrollCallback` sets `cameraR` to the clamp of `cameraR - zoomSpeed * yOffset` (as the
program computes it) to `[minDistance, maxDistance]` and changes no other field of the
camera. -/
theorem ScrollCallback_clamps (st : Camera) (xOffset yOffset : Int) :
    ScrollCallback st xOffset yOffset =
      { st with
        cameraR := clamp (f32 (f64 (st.cameraR - mul64 zoomSpeed yOffset)))
          minDistance maxDistance } := by
  have hb := distance_bounds
  obtain ⟨f, p, t, r, mx, my, rot⟩ := st
  simp only [ScrollCallback, clamp]
  split_ifs
  all_goals simp only at *
  all_goals first
    | rfl
    | omega

/-- Witness of `ScrollCallback_clamps`: radius 50 (inside `[minDistance, maxDistance]`),
`yOffset = 5` and `zoomSpeed = 2` give the radius 40, dragging or not. -/
theorem ScrollCallback_clamps_witness :
    (minDistance ≤ initialCamera.cameraR ∧ initialCamera.cameraR ≤ maxDistance) ∧
    ScrollCallback initialCamera 0 (ofInt 5) = { initialCamera with cameraR := ofInt 40 } ∧
    ScrollCallback { initialCamera with rotating := true } 0 (ofInt 5) =
      { initialCamera with rotating := true, cameraR := ofInt 40 } := by
  have h : minDistance ≤ initialCamera.cameraR ∧ initialCamera.cameraR ≤ maxDistance := by
    decide!
  have e : clamp (f32 (f64 (ofInt 50 - mul64 zoomSpeed (ofInt 5)))) minDistance maxDistance
      = ofInt 40 := by decide!
  refine ⟨h, ?_, ?_⟩
  · rw [ScrollCallback_clamps initialCamera 0 (ofInt 5)]
    simp only [initialCamera, e]
  · rw [ScrollCallback_clamps { initialCamera with rotating := true } 0 (ofInt 5)]
    simp only [initialCamera, e]

/-! ## Orbital transforms over the real numbers -/

theorem rsqrt_one : (fun x : ℝ => (Real.sqrt x)⁻¹) (0 * 0 + 1 * 1 + 0 * 0) = 1 := by norm_num

/-- The rotation about the x axis, entry by entry. -/
theorem rotate_x (a : ℝ) :
    glm.rotate Real.cos Real.sin (fun x => (Real.sqrt x)⁻¹) 1 a xaxis =
      !![1, 0, 0, 0;
         0, Real.cos a, -Real.sin a, 0;
         0, Real.sin a, Real.cos a, 0;
         0, 0, 0, 1] := by
  simp only [glm.rotate, glm.normalize, xaxis, Matrix.cons_val_zero, Matrix.cons_val_one,
    Matrix.head_cons, Matrix.cons_val_two, Matrix.tail_cons, one_mul]
  norm_num

/-- The rotation about the y axis, entry by entry. -/
theorem rotate_y (a : ℝ) :
    glm.rotate Real.cos Real.sin (fun x => (Real.sqrt x)⁻¹) 1 a yaxis =
      !![Real.cos a, 0, Real.sin a, 0;
         0, 1, 0, 0;
         -Real.sin a, 0, Real.cos a, 0;
         0, 0, 0, 1] := by
  simp only [glm.rotate, glm.normalize, yaxis, Matrix.cons_val_zero, Matrix.cons_val_one,
    Matrix.head_cons, Matrix.cons_val_two, Matrix.tail_cons, one_mul]
  norm_num

/-- The rotation about the z axis, entry by entry. -/
theorem rotate_z (a : ℝ) :
    glm.rotate Real.cos Real.sin (fun x => (Real.sqrt x)⁻¹) 1 a zaxis =
      !![Real.cos a, -Real.sin a, 0, 0;
         Real.sin a, Real.cos a, 0, 0;
         0, 0, 1, 0;
         0, 0, 0, 1] := by
  simp only [glm.rotate, glm.normalize, zaxis, Matrix.cons_val_zero, Matrix.cons_val_one,
    Matrix.head_cons, Matrix.cons_val_two, Matrix.tail_cons, one_mul]
  norm_num

/-- The translation matrix, entry by entry. -/
theorem translate_one (v : Fin 3 → ℝ) :
    glm.translate 1 v = !![1, 0, 0, v 0; 0, 1, 0, v 1; 0, 0, 1, v 2; 0, 0, 0, 1] := by
  simp [glm.translate]

/-- The product of two 4 by 4 matrices, entry by entry. -/
theorem mul_entries (a00 a01 a02 a03 a10 a11 a12 a13 a20 a21 a22 a23 a30 a31 a32 a33
    b00 b01 b02 b03 b10 b11 b12 b13 b20 b21 b22 b23 b30 b31 b32 b33 : ℝ) :
    !![a00, a01, a02, a03; a10, a11, a12, a13; a20, a21, a22, a23; a30, a31, a32, a33] *
      !![b00, b01, b02, b03; b10, b11, b12, b13; b20, b21, b22, b23; b30, b31, b32, b33] =
    !![a00 * b00 + a01 * b10 + a02 * b20 + a03 * b30,
       a00 * b01 + a01 * b11 + a02 * b21 + a03 * b31,
       a00 * b02 + a01 * b12 + a02 * b22 + a03 * b32,
       a00 * b03 + a01 * b13 + a02 * b23 + a03 * b33;
       a10 * b00 + a11 * b10 + a12 * b20 + a13 * b30,
       a10 * b01 + a11 * b11 + a12 * b21 + a13 * b31,
       a10 * b02 + a11 * b12 + a12 * b22 + a13 * b32,
       a10 * b03 + a11 * b13 + a12 * b23 + a13 * b33;
       a20 * b00 + a21 * b10 + a22 * b20 + a23 * b30,
       a20 * b01 + a21 * b11 + a22 * b21 + a23 * b31,
       a20 * b02 + a21 * b12 + a22 * b22 + a23 * b32,
       a20 * b03 + a21 * b13 + a22 * b23 + a23 * b33;
       a30 * b00 + a31 * b10 + a32 * b20 + a33 * b30,
       a30 * b01 + a31 * b11 + a32 * b21 + a33 * b31,
       a30 * b02 + a31 * b12 + a32 * b22 + a33 * b32,
       a30 * b03 + a31 * b13 + a32 * b23 + a33 * b33] := by
  ext i j
  fin_cases i <;> fin_cases j <;> simp [Matrix.mul_apply, Fin.sum_univ_four]

/-- A 4 by 4 matrix times a vector, entry by entry. -/
theorem mulVec_entries (a00 a01 a02 a03 a10 a11 a12 a13 a20 a21 a22 a23 a30 a31 a32 a33
    v0 v1 v2 v3 : ℝ) :
    Matrix.mulVec
      !![a00, a01, a02, a03; a10, a11, a12, a13; a20, a21, a22, a23; a30, a31, a32, a33]
      ![v0, v1, v2, v3] =
    ![a00 * v0 + a01 * v1 + a02 * v2 + a03 * v3,
      a10 * v0 + a11 * v1 + a12 * v2 + a13 * v3,
      a20 * v0 + a21 * v1 + a22 * v2 + a23 * v3,
      a30 * v0 + a31 * v1 + a32 * v2 + a33 * v3] := by
  ext i
  fin_cases i <;> simp [Matrix.mulVec, Matrix.dotProduct, Fin.sum_univ_four]

/-- Two 4 by 4 matrices with equal entries are equal. -/
theorem matrix_entries_ext (a00 a01 a02 a03 a10 a11 a12 a13 a20 a21 a22 a23 a30 a31 a32 a33
    b00 b01 b02 b03 b10 b11 b12 b13 b20 b21 b22 b23 b30 b31 b32 b33 : ℝ)
    (h00 : a00 = b00) (h01 : a01 = b01) (h02 : a02 = b02) (h03 : a03 = b03)
    (h10 : a10 = b10) (h11 : a11 = b11) (h12 : a12 = b12) (h13 : a13 = b13)
    (h20 : a20 = b20) (h21 : a21 = b21) (h22 : a22 = b22) (h23 : a23 = b23)
    (h30 : a30 = b30) (h31 : a31 = b31) (h32 : a32 = b32) (h33 : a33 = b33) :
    !![a00, a01, a02, a03; a10, a11, a12, a13; a20, a21, a22, a23; a30, a31, a32, a33] =
      !![b00, b01, b02, b03; b10, b11, b12, b13; b20, b21, b22, b23; b30, b31, b32, b33] := by
  subst h00 h01 h02 h03 h10 h11 h12 h13 h20 h21 h22 h23 h30 h31 h32 h33
  rfl

/-- Two vectors of length 4 with equal entries are equal. -/
theorem vec4_entries_ext (a0 a1 a2 a3 b0 b1 b2 b3 : ℝ)
    (h0 : a0 = b0) (h1 : a1 = b1) (h2 : a2 = b2) (h3 : a3 = b3) :
    ![a0, a1, a2, a3] = ![b0, b1, b2, b3] := by
  subst h0 h1 h2 h3
  rfl

/-- Orbit rotation, translation along x and counter rotation: a pure translation to the
point of the circle. -/
theorem orbit_counter_rotate (d a : ℝ) :
    glm.rotate Real.cos Real.sin (fun x => (Real.sqrt x)⁻¹) 1 a yaxis *
        glm.translate 1 ![d, 0, 0] *
        glm.rotate Real.cos Real.sin (fun x => (Real.sqrt x)⁻¹) 1 (-a) yaxis =
      !![1, 0, 0, d * Real.cos a;
         0, 1, 0, 0;
         0, 0, 1, -(d * Real.sin a);
         0, 0, 0, 1] := by
  have h := Real.cos_sq_add_sin_sq a
  simp only [rotate_y, translate_one, Real.cos_neg, Real.sin_neg,
    mul_entries, Matrix.cons_val_zero, Matrix.cons_val_one, Matrix.head_cons,
    Matrix.cons_val_two, Matrix.tail_cons]
  apply matrix_entries_ext <;> first | ring1 | linear_combination h

/-- The matrix `earthPos`, entry by entry. -/
theorem earthPos_eq (b : Bodies ℝ) (yangle : ℝ) :
    earthPos Real.cos Real.sin (fun x => (Real.sqrt x)⁻¹) b yangle =
      !![1, 0, 0, b.distEarthToSun * Real.cos (yangle / b.earthOrbit);
         0, Real.cos b.earthTilt, -Real.sin b.earthTilt, 0;
         0, Real.sin b.earthTilt, Real.cos b.earthTilt,
           -(b.distEarthToSun * Real.sin (yangle / b.earthOrbit));
         0, 0, 0, 1] := by
  unfold earthPos
  rw [orbit_counter_rotate, rotate_x, mul_entries]
  apply matrix_entries_ext <;> ring

/-- The world position of the earth: `earthPos * (0, 0, 0, 1)`. -/
theorem earthPos_origin (b : Bodies ℝ) (yangle : ℝ) :
    Matrix.mulVec (earthPos Real.cos Real.sin (fun x => (Real.sqrt x)⁻¹) b yangle)
        (vec4 ![0, 0, 0] 1) =
      ![b.distEarthToSun * Real.cos (yangle / b.earthOrbit), 0,
        -(b.distEarthToSun * Real.sin (yangle / b.earthOrbit)), 1] := by
  rw [earthPos_eq]
  simp only [vec4, Matrix.cons_val_zero, Matrix.cons_val_one, Matrix.head_cons,
    Matrix.cons_val_two, Matrix.tail_cons, mulVec_entries]
  apply vec4_entries_ext <;> ring

/-- The world position of the moon: `moonPos * (0, 0, 0, 1)`. -/
theorem moonPos_origin (b : Bodies ℝ) (yangle : ℝ) :
    Matrix.mulVec (moonPos Real.cos Real.sin (fun x => (Real.sqrt x)⁻¹) b yangle)
        (vec4 ![0, 0, 0] 1) =
      ![Real.cos b.moonIncl * (b.distMoonToEarth * Real.cos (yangle / b.moonOrbit))
          + b.distEarthToSun * Real.cos (yangle / b.earthOrbit),
        Real.cos b.earthTilt
            * (Real.sin b.moonIncl * (b.distMoonToEarth * Real.cos (yangle / b.moonOrbit)))
          - Real.sin b.earthTilt * -(b.distMoonToEarth * Real.sin (yangle / b.moonOrbit)),
        Real.sin b.earthTilt
            * (Real.sin b.moonIncl * (b.distMoonToEarth * Real.cos (yangle / b.moonOrbit)))
          + Real.cos b.earthTilt * -(b.distMoonToEarth * Real.sin (yangle / b.moonOrbit))
          - b.distEarthToSun * Real.sin (yangle / b.earthOrbit),
        1] := by
  unfold moonPos
  simp only [← Matrix.mulVec_mulVec]
  rw [earthPos_eq, rotate_x, rotate_y, rotate_z, translate_one]
  simp only [vec4, Matrix.cons_val_zero, Matrix.cons_val_one, Matrix.head_cons,
    Matrix.cons_val_two, Matrix.tail_cons, mulVec_entries]
  apply vec4_entries_ext <;> ring

/-- C4: for every world angle (and whatever the earth's orbital position, the tilts and
the moon's inclination are), the moon's world position `moonPos * (0, 0, 0, 1)` lies at
Euclidean distance `distMoonToEarth` from the earth's world position
`earthPos * (0, 0, 0, 1)`. -/
theorem moon_distance_from_earth (b : Bodies ℝ) (yangle : ℝ) (hd : 0 ≤ b.distMoonToEarth) :
    Real.sqrt
      ((Matrix.mulVec (moonPos Real.cos Real.sin (fun x => (Real.sqrt x)⁻¹) b yangle)
            (vec4 ![0, 0, 0] 1) 0
          - Matrix.mulVec (earthPos Real.cos Real.sin (fun x => (Real.sqrt x)⁻¹) b yangle)
            (vec4 ![0, 0, 0] 1) 0) ^ 2
        + (Matrix.mulVec (moonPos Real.cos Real.sin (fun x => (Real.sqrt x)⁻¹) b yangle)
            (vec4 ![0, 0, 0] 1) 1
          - Matrix.mulVec (earthPos Real.cos Real.sin (fun x => (Real.sqrt x)⁻¹) b yangle)
            (vec4 ![0, 0, 0] 1) 1) ^ 2
        + (Matrix.mulVec (moonPos Real.cos Real.sin (fun x => (Real.sqrt x)⁻¹) b yangle)
            (vec4 ![0, 0, 0] 1) 2
          - Matrix.mulVec (earthPos Real.cos Real.sin (fun x => (Real.sqrt x)⁻¹) b yangle)
            (vec4 ![0, 0, 0] 1) 2) ^ 2)
      = b.distMoonToEarth := by
  have ht := Real.cos_sq_add_sin_sq b.earthTilt
  have hi := Real.cos_sq_add_sin_sq b.moonIncl
  have ha := Real.cos_sq_add_sin_sq (yangle / b.moonOrbit)
  rw [moonPos_origin, earthPos_origin]
  simp only [Matrix.cons_val_zero, Matrix.cons_val_one, Matrix.head_cons,
    Matrix.cons_val_two, Matrix.tail_cons]
  rw [show (Real.cos b.moonIncl * (b.distMoonToEarth * Real.cos (yangle / b.moonOrbit))
        + b.distEarthToSun * Real.cos (yangle / b.earthOrbit)
        - b.distEarthToSun * Real.cos (yangle / b.earthOrbit)) ^ 2
      + (Real.cos b.earthTilt
            * (Real.sin b.moonIncl * (b.distMoonToEarth * Real.cos (yangle / b.moonOrbit)))
          - Real.sin b.earthTilt * -(b.distMoonToEarth * Real.sin (yangle / b.moonOrbit))
          - 0) ^ 2
      + (Real.sin b.earthTilt
            * (Real.sin b.moonIncl * (b.distMoonToEarth * Real.cos (yangle / b.moonOrbit)))
          + Real.cos b.earthTilt * -(b.distMoonToEarth * Real.sin (yangle / b.moonOrbit))
          - b.distEarthToSun * Real.sin (yangle / b.earthOrbit)
          - -(b.distEarthToSun * Real.sin (yangle / b.earthOrbit))) ^ 2
      = b.distMoonToEarth ^ 2 by
    linear_combination
      ((Real.sin b.moonIncl * (b.distMoonToEarth * Real.cos (yangle / b.moonOrbit))) ^ 2
        + (b.distMoonToEarth * Real.sin (yangle / b.moonOrbit)) ^ 2) * ht
      + (b.distMoonToEarth * Real.cos (yangle / b.moonOrbit)) ^ 2 * hi
      + b.distMoonToEarth ^ 2 * ha]
  exact Real.sqrt_sq hd

/-- Witness of `moon_distance_from_earth`: the constants of the program, with
`distMoonToEarth = log(384403.08 / 1111.1) / log(2)`, at world angle 1. -/
theorem moon_distance_from_earth_witness :
    0 ≤ (sourceBodies (Real.log (149597890 / 1111.1) / Real.log 2)
      (Real.log (384403.08 / 1111.1) / Real.log 2) (toField ℝ piVal)).distMoonToEarth ∧
    Real.sqrt
      ((Matrix.mulVec (moonPos Real.cos Real.sin (fun x => (Real.sqrt x)⁻¹)
            (sourceBodies (Real.log (149597890 / 1111.1) / Real.log 2)
              (Real.log (384403.08 / 1111.1) / Real.log 2) (toField ℝ piVal)) 1)
            (vec4 ![0, 0, 0] 1) 0
          - Matrix.mulVec (earthPos Real.cos Real.sin (fun x => (Real.sqrt x)⁻¹)
            (sourceBodies (Real.log (149597890 / 1111.1) / Real.log 2)
              (Real.log (384403.08 / 1111.1) / Real.log 2) (toField ℝ piVal)) 1)
            (vec4 ![0, 0, 0] 1) 0) ^ 2
        + (Matrix.mulVec (moonPos Real.cos Real.sin (fun x => (Real.sqrt x)⁻¹)
            (sourceBodies (Real.log (149597890 / 1111.1) / Real.log 2)
              (Real.log (384403.08 / 1111.1) / Real.log 2) (toField ℝ piVal)) 1)
            (vec4 ![0, 0, 0] 1) 1
          - Matrix.mulVec (earthPos Real.cos Real.sin (fun x => (Real.sqrt x)⁻¹)
            (sourceBodies (Real.log (149597890 / 1111.1) / Real.log 2)
              (Real.log (384403.08 / 1111.1) / Real.log 2) (toField ℝ piVal)) 1)
            (vec4 ![0, 0, 0] 1) 1) ^ 2
        + (Matrix.mulVec (moonPos Real.cos Real.sin (fun x => (Real.sqrt x)⁻¹)
            (sourceBodies (Real.log (149597890 / 1111.1) / Real.log 2)
              (Real.log (384403.08 / 1111.1) / Real.log 2) (toField ℝ piVal)) 1)
            (vec4 ![0, 0, 0] 1) 2
          - Matrix.mulVec (earthPos Real.cos Real.sin (fun x => (Real.sqrt x)⁻¹)
            (sourceBodies (Real.log (149597890 / 1111.1) / Real.log 2)
              (Real.log (384403.08 / 1111.1) / Real.log 2) (toField ℝ piVal)) 1)
            (vec4 ![0, 0, 0] 1) 2) ^ 2)
      = Real.log (384403.08 / 1111.1) / Real.log 2 := by
  have h : 0 ≤ (sourceBodies (Real.log (149597890 / 1111.1) / Real.log 2)
      (Real.log (384403.08 / 1111.1) / Real.log 2) (toField ℝ piVal)).distMoonToEarth := by
    simp only [sourceBodies]
    exact div_nonneg (Real.log_nonneg (by norm_num)) (Real.log_nonneg (by norm_num))
  exact ⟨h, moon_distance_from_earth _ 1 h⟩

/-- C8, counterexample: with the periods of the program (`sunRotate = 25.38`,
`earthRotate = 0.99726968`), the self-rotation matrix at world angle `yangle = period` is
the rotation by 1 radian, not the rotation at `yangle = 0` (the identity). -/
theorem selfRotation_after_one_period :
    sunSelfRotation Real.cos Real.sin (fun x => (Real.sqrt x)⁻¹)
        (sourceBodies 1 1 (toField ℝ piVal)) (2538 / 100) ≠
      sunSelfRotation Real.cos Real.sin (fun x => (Real.sqrt x)⁻¹)
        (sourceBodies 1 1 (toField ℝ piVal)) 0 ∧
    earthSelfRotation Real.cos Real.sin (fun x => (Real.sqrt x)⁻¹)
        (sourceBodies 1 1 (toField ℝ piVal)) (99726968 / 100000000) ≠
      earthSelfRotation Real.cos Real.sin (fun x => (Real.sqrt x)⁻¹)
        (sourceBodies 1 1 (toField ℝ piVal)) 0 := by
  have hcos : Real.cos 1 ≠ 1 := by
    have := Real.cos_one_le
    intro h; rw [h] at this; norm_num at this
  constructor
  · intro h
    have h00 := congrFun (congrFun h 0) 0
    simp only [sunSelfRotation, sourceBodies, rotate_y] at h00
    norm_num at h00
    exact hcos h00
  · intro h
    have h00 := congrFun (congrFun h 0) 0
    simp only [earthSelfRotation, sourceBodies, rotate_y] at h00
    norm_num at h00
    exact hcos h00

/-- C8, as amended: for a body with a non-zero period, advancing the world angle by
`2 π` times the period returns the self-rotation matrix `rotate(I, yangle / period, yaxis)`
to the same matrix; in particular at `yangle = 2 π period` it equals the one at
`yangle = 0`. -/
theorem selfRotation_periodic (b : Bodies ℝ) (yangle : ℝ)
    (hs : b.sunRotate ≠ 0) (he : b.earthRotate ≠ 0) :
    sunSelfRotation Real.cos Real.sin (fun x => (Real.sqrt x)⁻¹) b
        (yangle + 2 * Real.pi * b.sunRotate) =
      sunSelfRotation Real.cos Real.sin (fun x => (Real.sqrt x)⁻¹) b yangle ∧
    earthSelfRotation Real.cos Real.sin (fun x => (Real.sqrt x)⁻¹) b
        (yangle + 2 * Real.pi * b.earthRotate) =
      earthSelfRotation Real.cos Real.sin (fun x => (Real.sqrt x)⁻¹) b yangle ∧
    sunSelfRotation Real.cos Real.sin (fun x => (Real.sqrt x)⁻¹) b (2 * Real.pi * b.sunRotate) =
      sunSelfRotation Real.cos Real.sin (fun x => (Real.sqrt x)⁻¹) b 0 ∧
    earthSelfRotation Real.cos Real.sin (fun x => (Real.sqrt x)⁻¹) b
        (2 * Real.pi * b.earthRotate) =
      earthSelfRotation Real.cos Real.sin (fun x => (Real.sqrt x)⁻¹) b 0 := by
  have e1 : ∀ y p : ℝ, p ≠ 0 → (y + 2 * Real.pi * p) / p = y / p + 2 * Real.pi := by
    intro y p hp; field_simp
  have e2 : ∀ p : ℝ, p ≠ 0 → 2 * Real.pi * p / p = 0 / p + 2 * Real.pi := by
    intro p hp; field_simp
  simp only [sunSelfRotation, earthSelfRotation, rotate_y]
  rw [e1 yangle _ hs, e1 yangle _ he, e2 _ hs, e2 _ he]
  simp only [Real.cos_add_two_pi, Real.sin_add_two_pi, and_self]

/-- Witness of `selfRotation_periodic`: the periods of the program, at world angle 0. -/
theorem selfRotation_periodic_witness :
    (sourceBodies 1 1 (toField ℝ piVal)).sunRotate ≠ 0 ∧
    (sourceBodies 1 1 (toField ℝ piVal)).earthRotate ≠ 0 ∧
    sunSelfRotation Real.cos Real.sin (fun x => (Real.sqrt x)⁻¹)
        (sourceBodies 1 1 (toField ℝ piVal)) (2 * Real.pi * (2538 / 100)) =
      sunSelfRotation Real.cos Real.sin (fun x => (Real.sqrt x)⁻¹)
        (sourceBodies 1 1 (toField ℝ piVal)) 0 ∧
    earthSelfRotation Real.cos Real.sin (fun x => (Real.sqrt x)⁻¹)
        (sourceBodies 1 1 (toField ℝ piVal)) (2 * Real.pi * (99726968 / 100000000)) =
      earthSelfRotation Real.cos Real.sin (fun x => (Real.sqrt x)⁻¹)
        (sourceBodies 1 1 (toField ℝ piVal)) 0 := by
  have hs : (sourceBodies 1 1 (toField ℝ piVal)).sunRotate ≠ 0 := by
    simp only [sourceBodies]; norm_num
  have he : (sourceBodies 1 1 (toField ℝ piVal)).earthRotate ≠ 0 := by
    simp only [sourceBodies]; norm_num
  have h := selfRotation_periodic (sourceBodies 1 1 (toField ℝ piVal)) 0 hs he
  exact ⟨hs, he, h.2.2.1, h.2.2.2⟩

/-- C3: every vertex `generateSphere` writes (p1, p2, p3 and the seam vertex p4, for every
row angle and column angle it visits) has the radius argument as its radius and, over the
real numbers, lies at distance `R` from the origin: `px^2 + py^2 + pz^2 = R^2`. -/
theorem generateSphere_vertices_on_sphere (fuel : Nat) (div R i j texID : Int) (st : GenState)
    (hrun : generateSphereRun fuel div R i j texID = some st) :
    ∀ w ∈ st.vertexWrites, w.radius = R ∧
      (w.position Real.cos Real.sin) 0 ^ 2 + (w.position Real.cos Real.sin) 1 ^ 2
        + (w.position Real.cos Real.sin) 2 ^ 2 = (toField ℝ R) ^ 2 := by
  intro w hw
  obtain ⟨r, _, c, _, slot, hmem⟩ := generateSphereRun_vertexWrites fuel div R i j texID st hrun w hw
  have hR : w.radius = R := by
    unfold cellVertexList at hmem
    simp only at hmem
    split_ifs at hmem <;>
      simp only [List.mem_cons, List.mem_singleton, List.not_mem_nil, or_false] at hmem <;>
      rcases hmem with rfl | rfl | rfl | rfl <;> rfl
  refine ⟨hR, ?_⟩
  have h1 := Real.cos_sq_add_sin_sq (toField ℝ w.azimuth)
  have h2 := Real.cos_sq_add_sin_sq (toField ℝ w.polar)
  simp only [VertexWrite.position, spherePoint, Matrix.cons_val_zero, Matrix.cons_val_one,
    Matrix.head_cons, Matrix.cons_val_two, Matrix.tail_cons, hR]
  linear_combination (toField ℝ R) ^ 2 * Real.sin (toField ℝ w.polar) ^ 2 * h1
    + (toField ℝ R) ^ 2 * h2

/-- Witness of `generateSphere_vertices_on_sphere`: the run for `div = 3`, radius 1. -/
theorem generateSphere_vertices_on_sphere_witness :
    ∃ st, generateSphereRun 100 (ofInt 3) one 0 0 0 = some st ∧
      ∀ w ∈ st.vertexWrites, w.radius = one ∧
        (w.position Real.cos Real.sin) 0 ^ 2 + (w.position Real.cos Real.sin) 1 ^ 2
          + (w.position Real.cos Real.sin) 2 ^ 2 = (toField ℝ one) ^ 2 := by
  obtain ⟨a, b, c, d⟩ := trace_div3
  obtain ⟨st, h1, _⟩ := generateSphereRun_counts 100 (ofInt 3) one 0 0 0
    3 2 7 1 a b c d (by norm_num) (by norm_num) (by decide)
  exact ⟨st, h1, generateSphere_vertices_on_sphere 100 (ofInt 3) one 0 0 0 st h1⟩
